import Mathlib

/-! Dining philosophers table (`filosofos.cpp`).

Shallow embedding of `class Mesa` of
`modulos/2_concurrencia_sincronizacion/basic_code/filosofos.cpp`.

Modelling conventions.

* The arrays `estados[NUM_FILOSOFOS]` and `contadores[NUM_FILOSOFOS]` are maps
  from an index to the stored value; only the indices below the ring size are
  slots of the table.  An access with an index outside `[0, N)` is outside the
  array and has undefined behaviour: the operations named `..._comprobado` take
  the `int` index of the source, check every array access against the array and
  give `none` for such an access.
* The ring size `NUM_FILOSOFOS` is an explicit argument `N` of every
  operation; the program fixes it to `5`.
* Every member function body runs under `std::unique_lock<std::mutex>`, so a
  body is one atomic transition of the table.  The only place where the lock is
  given up inside a body is `cv[i].wait(lock)` in `tomar_tenedores`; that loop is
  modelled separately (`tomar_tenedores_espera`).
* `cv[i].notify_one()` carries no data: the thread that is woken re-evaluates
  its loop guard on the table, so notifications are not part of the state.
* The `int` counters are unbounded integers (the program increments a counter
  at most once per second-long cycle, signed overflow is out of reach).
-/

namespace Filosofos

/-- Ring size fixed by the program: `const int NUM_FILOSOFOS = 5;`. -/
def NUM_FILOSOFOS : Nat := 5

/-- States of a philosopher: `enum Estado { PENSANDO, HAMBRIENTO, COMIENDO }`. -/
inductive Estado where
  | PENSANDO
  | HAMBRIENTO
  | COMIENDO
  deriving DecidableEq, Repr

/-- Per philosopher counters: `struct Contadores`. -/
structure Contadores where
  pensando : Int := 0
  hambriento : Int := 0
  comiendo : Int := 0
  deriving DecidableEq, Repr

/-- Data members of `class Mesa` that carry state: `estados`, `running`
(the referenced atomic flag) and `contadores`. -/
structure Mesa where
  estados : Nat → Estado
  running : Bool
  contadores : Nat → Contadores

/-- Array store `a[i] = v`. -/
def escribir {α : Type} (a : Nat → α) (i : Nat) (v : α) : Nat → α :=
  fun j => if j = i then v else a j

/-- Body of `void probar(int i)`: the guarded promotion to `COMIENDO`. -/
def probar (N : Nat) (m : Mesa) (i : Nat) : Mesa :=
  if m.estados i = Estado.HAMBRIENTO ∧
      m.estados ((i + N - 1) % N) ≠ Estado.COMIENDO ∧
      m.estados ((i + 1) % N) ≠ Estado.COMIENDO then
    { m with
      estados := escribir m.estados i Estado.COMIENDO
      contadores := escribir m.contadores i
        { m.contadores i with comiendo := (m.contadores i).comiendo + 1 } }
  else m

/-- Constructor `Mesa(std::atomic<bool>& r)`: every philosopher is `PENSANDO`
with counters `1, 0, 0`; `r` is the value of the referenced flag. -/
def Mesa.inicial (r : Bool) : Mesa :=
  { estados := fun _ => Estado.PENSANDO
    running := r
    contadores := fun _ => { pensando := 1, hambriento := 0, comiendo := 0 } }

/-- Member `bool esta_ejecutando() const`. -/
def esta_ejecutando (m : Mesa) : Bool := m.running

/-- Request phase of `tomar_tenedores(i)`: the statements executed under the
lock before the wait loop (`estados[i] = HAMBRIENTO; contadores[i].hambriento++;
probar(i);`). -/
def tomar_tenedores_solicitud (N : Nat) (m : Mesa) (i : Nat) : Mesa :=
  probar N
    { m with
      estados := escribir m.estados i Estado.HAMBRIENTO
      contadores := escribir m.contadores i
        { m.contadores i with hambriento := (m.contadores i).hambriento + 1 } }
    i

/-- Guard of the wait loop of `tomar_tenedores(i)`:
`estados[i] != COMIENDO && running`. -/
def tomar_tenedores_guarda (m : Mesa) (i : Nat) : Bool :=
  (m.estados i != Estado.COMIENDO) && m.running

/-- Body of `void liberar_tenedores(int i)`. -/
def liberar_tenedores (N : Nat) (m : Mesa) (i : Nat) : Mesa :=
  probar N
    (probar N
      { m with
        estados := escribir m.estados i Estado.PENSANDO
        contadores := escribir m.contadores i
          { m.contadores i with pensando := (m.contadores i).pensando + 1 } }
      ((i + N - 1) % N))
    ((i + 1) % N)

/-- Atomic transitions of the table seen by the other threads: the request
phase of an acquire, a release, and a store to the flag by its owner. -/
inductive Paso where
  | tomar (i : Nat)
  | liberar (i : Nat)
  | bandera (b : Bool)
  deriving DecidableEq, Repr

/-- A step addresses a slot of the ring. -/
def Paso.enRango (N : Nat) : Paso → Bool
  | Paso.tomar i => decide (i < N)
  | Paso.liberar i => decide (i < N)
  | Paso.bandera _ => true

/-- Effect of one atomic step on the table. -/
def paso (N : Nat) (m : Mesa) : Paso → Mesa
  | Paso.tomar i => tomar_tenedores_solicitud N m i
  | Paso.liberar i => liberar_tenedores N m i
  | Paso.bandera b => { m with running := b }

/-- Effect of a finite sequence of atomic steps, first step first. -/
def ejecutar (N : Nat) (m : Mesa) : List Paso → Mesa
  | [] => m
  | p :: ps => ejecutar N (paso N m p) ps

/-- Wait loop of `tomar_tenedores(i)`:
`while (estados[i] != COMIENDO && running) cv[i].wait(lock);`.
Each `cv[i].wait` gives up the lock; the head of `entorno` is the sequence of
atomic steps the other threads take before this thread holds the lock again
(the empty sequence is a spurious wake-up).  `none`: still blocked when the
recorded `entorno` is used up. -/
def tomar_tenedores_espera (N : Nat) (i : Nat) : Mesa → List (List Paso) → Option Mesa
  | m, [] => if tomar_tenedores_guarda m i then none else some m
  | m, e :: resto =>
    if tomar_tenedores_guarda m i then tomar_tenedores_espera N i (ejecutar N m e) resto
    else some m

/-- Whole call `tomar_tenedores(i)`: request phase, then the wait loop. -/
def tomar_tenedores (N : Nat) (m : Mesa) (i : Nat) (entorno : List (List Paso)) : Option Mesa :=
  tomar_tenedores_espera N i (tomar_tenedores_solicitud N m i) entorno

/-- Tables reachable from the freshly constructed one by atomic steps that
address slots of the ring. -/
def Alcanzable (N : Nat) (m : Mesa) : Prop :=
  ∃ (r : Bool) (ps : List Paso), (∀ p ∈ ps, p.enRango N = true) ∧ ejecutar N (Mesa.inicial r) ps = m

/-- Invariant I1: no two ring-adjacent slots are both `COMIENDO`. -/
def ExclusionMutua (N : Nat) (m : Mesa) : Prop :=
  ∀ i, i < N → ¬ (m.estados i = Estado.COMIENDO ∧ m.estados ((i + 1) % N) = Estado.COMIENDO)

/-- Invariant I2 at slot `k`: if `k` is `HAMBRIENTO`, one of its neighbours is `COMIENDO`. -/
def AtendidoEn (N : Nat) (m : Mesa) (k : Nat) : Prop :=
  m.estados k = Estado.HAMBRIENTO →
    m.estados ((k + N - 1) % N) = Estado.COMIENDO ∨ m.estados ((k + 1) % N) = Estado.COMIENDO

/-- Invariant I2: no slot of the ring is `HAMBRIENTO` with both neighbours not `COMIENDO`. -/
def SinPromocionPerdida (N : Nat) (m : Mesa) : Prop :=
  ∀ k, k < N → AtendidoEn N m k

/-- Both table invariants together. -/
def Invariante (N : Nat) (m : Mesa) : Prop :=
  ExclusionMutua N m ∧ SinPromocionPerdida N m

/-- The condition tested by `probar`. -/
def PuedeComer (N : Nat) (m : Mesa) (k : Nat) : Prop :=
  m.estados k = Estado.HAMBRIENTO ∧
    m.estados ((k + N - 1) % N) ≠ Estado.COMIENDO ∧
    m.estados ((k + 1) % N) ≠ Estado.COMIENDO

instance (N : Nat) (m : Mesa) (k : Nat) : Decidable (PuedeComer N m k) := by
  unfold PuedeComer; infer_instance

/-- Caller discipline of the loop of `filosofo(id)`: `tomar_tenedores(id)` is issued by a
philosopher that is `PENSANDO` (it is between two cycles) and `liberar_tenedores(id)` by one that
is `COMIENDO` (it has been promoted). -/
def Paso.permitido (N : Nat) (m : Mesa) : Paso → Bool
  | Paso.tomar i => decide (i < N) && decide (m.estados i = Estado.PENSANDO)
  | Paso.liberar i => decide (i < N) && decide (m.estados i = Estado.COMIENDO)
  | Paso.bandera _ => true

/-- Every step of the sequence respects the caller discipline on the table it is applied to. -/
def disciplinada (N : Nat) : Mesa → List Paso → Bool
  | _, [] => true
  | m, p :: ps => p.permitido N m && disciplinada N (paso N m p) ps

/-- Number of releases by philosopher `i` in a sequence of steps: under the caller discipline,
the number of acquire/release cycles `i` has completed. -/
def ciclos (i : Nat) : List Paso → Nat
  | [] => 0
  | Paso.liberar j :: ps => (if j = i then 1 else 0) + ciclos i ps
  | Paso.tomar _ :: ps => ciclos i ps
  | Paso.bandera _ :: ps => ciclos i ps

/-- Counters of philosopher `i` agree with `c` completed cycles and its current state. -/
def Cuenta (m : Mesa) (i : Nat) (c : Nat) : Prop :=
  (m.contadores i).pensando = (c : Int) + 1 ∧
    (m.estados i = Estado.PENSANDO →
      (m.contadores i).hambriento = (c : Int) ∧ (m.contadores i).comiendo = (c : Int)) ∧
    (m.estados i = Estado.HAMBRIENTO →
      (m.contadores i).hambriento = (c : Int) + 1 ∧ (m.contadores i).comiendo = (c : Int)) ∧
    (m.estados i = Estado.COMIENDO →
      (m.contadores i).hambriento = (c : Int) + 1 ∧ (m.contadores i).comiendo = (c : Int) + 1)

/-- The sequence `ps` repeated `n` times. -/
def repetir (n : Nat) (ps : List Paso) : List Paso :=
  match n with
  | 0 => []
  | k + 1 => ps ++ repetir k ps

/-- Philosopher `v` is `HAMBRIENTO` after every step of the sequence. -/
def hambriento_durante (N v : Nat) : Mesa → List Paso → Bool
  | _, [] => true
  | m, p :: ps =>
    decide ((paso N m p).estados v = Estado.HAMBRIENTO) && hambriento_durante N v (paso N m p) ps

/-- The step is a call of philosopher `j` (a request or a release with index `j`). -/
def Paso.de (j : Nat) : Paso → Bool
  | Paso.tomar i => decide (i = j)
  | Paso.liberar i => decide (i = j)
  | Paso.bandera _ => false

/-- Table of five in which philosopher 0 eats and philosopher 1 waits, reached by the requests
of 0 and then 1. -/
def mesa_inanicion : Mesa :=
  ejecutar 5 (Mesa.inicial true) [Paso.tomar 0, Paso.tomar 1]

/-- Schedule in which the neighbours 0 and 2 of philosopher 1 take turns: 2 asks and eats,
0 releases, 0 asks and eats again, 2 releases. -/
def ciclo_inanicion : List Paso :=
  [Paso.tomar 2, Paso.liberar 0, Paso.tomar 0, Paso.liberar 2]


/-- What `imprimir_estado` writes for one philosopher: its index, its state, its three
counters and the two availability flags `tenedor_izq`, `tenedor_der` (shown as the background
colour of `Izq` and `Der`). -/
structure Fila where
  indice : Nat
  estado : Estado
  pensando : Int
  hambriento : Int
  comiendo : Int
  tenedor_izq : Bool
  tenedor_der : Bool
  deriving DecidableEq, Repr

/-- Body of the `for` loop of `imprimir_estado` for philosopher `i`. -/
def imprimir_fila (N : Nat) (m : Mesa) (i : Nat) : Fila :=
  { indice := i
    estado := m.estados i
    pensando := (m.contadores i).pensando
    hambriento := (m.contadores i).hambriento
    comiendo := (m.contadores i).comiendo
    tenedor_izq := m.estados ((i + N - 1) % N) != Estado.COMIENDO
    tenedor_der := m.estados ((i + 1) % N) != Estado.COMIENDO }

/-- Member `void imprimir_estado()`: the table after the call and the rows written for
`i = 0 .. N - 1`; the body has no store to a data member. -/
def imprimir_estado (N : Nat) (m : Mesa) : Mesa × List Fila :=
  (m, (List.range N).map (imprimir_fila N m))

/-- Member `void despertar_todos()`: the table after the call and the indices of the condition
variables on which `notify_all` is called, in order; the body has no store to a data member. -/
def despertar_todos (N : Nat) (m : Mesa) : Mesa × List Nat :=
  (m, List.range N)

/-- The step is taken by a philosopher thread: `filosofo` calls `tomar_tenedores` and
`liberar_tenedores` only, and never stores to the flag. -/
def Paso.deFilosofo : Paso → Bool
  | Paso.tomar _ => true
  | Paso.liberar _ => true
  | Paso.bandera _ => false

/-- Display loop of `main`:
`while (running) { mesa.imprimir_estado(); sleep_for(500ms); }`.
The head of `entorno` is what the other threads do during one sleep.  `none`: the loop is still
running when the recorded `entorno` is used up. -/
def main_bucle (N : Nat) : Mesa → List (List Paso) → Option Mesa
  | m, [] => if m.running then none else some m
  | m, e :: resto =>
    if m.running then main_bucle N (ejecutar N (imprimir_estado N m).1 e) resto
    else some m

/-- Function `main` up to the joins: the flag starts as `running(true)`, the table is
constructed, the display loop runs, then `despertar_todos` is called.  `none`: the display loop
has not ended. -/
def main (entorno : List (List Paso)) : Option (Mesa × List Nat) :=
  match main_bucle NUM_FILOSOFOS (Mesa.inicial true) entorno with
  | none => none
  | some m => some (despertar_todos NUM_FILOSOFOS m)

/-- What the other threads do around one iteration of the loop of `filosofo(id)`, at the
points where this thread does not hold the lock: during the thinking sleep, during each wait
inside `tomar_tenedores`, between the return of `tomar_tenedores` and the `if` test, during the
eating sleep, and between the end of the body and the next `while` test. -/
structure Entorno where
  pensar : List Paso
  espera : List (List Paso)
  antes_si : List Paso
  comer : List Paso
  despues : List Paso

/-- Body of the `while` loop of `filosofo(id)`: the table after the body (`none` when the
thread is still blocked inside `tomar_tenedores`) and the table operations the thread issued. -/
def filosofo_cuerpo (N id : Nat) (m : Mesa) (en : Entorno) : Option Mesa × List Paso :=
  match tomar_tenedores N (ejecutar N m en.pensar) id en.espera with
  | none => (none, [Paso.tomar id])
  | some m2 =>
    if esta_ejecutando (ejecutar N m2 en.antes_si) then
      (some (liberar_tenedores N (ejecutar N (ejecutar N m2 en.antes_si) en.comer) id),
        [Paso.tomar id, Paso.liberar id])
    else (some (ejecutar N m2 en.antes_si), [Paso.tomar id])

/-- Function `filosofo(id, mesa)`: `while (mesa.esta_ejecutando()) { ... }`.  First component:
the table on which the loop exited, `none` when the thread is still inside the loop when the
recorded environment is used up; second component: the table operations the thread issued. -/
def filosofo (N id : Nat) : Mesa → List Entorno → Option Mesa × List Paso
  | m, [] => if esta_ejecutando m then (none, []) else (some m, [])
  | m, en :: resto =>
    if esta_ejecutando m then
      match filosofo_cuerpo N id m en with
      | (none, ops) => (none, ops)
      | (some m2, ops) =>
        ((filosofo N id (ejecutar N m2 en.despues) resto).1,
          ops ++ (filosofo N id (ejecutar N m2 en.despues) resto).2)
    else (some m, [])


/-- Number of philosophers of the ring that are `COMIENDO`. -/
def comensales (N : Nat) (m : Mesa) : Nat :=
  ((List.range N).filter (fun i => decide (m.estados i = Estado.COMIENDO))).length

/-- Counters of slot `i` are consistent with its state: it has thought at least once, it has
not been promoted more often than it has asked, and strictly less often while it is waiting. -/
def Coherente (m : Mesa) (i : Nat) : Prop :=
  1 ≤ (m.contadores i).pensando ∧
    (m.contadores i).comiendo ≤ (m.contadores i).hambriento ∧
    (m.estados i = Estado.HAMBRIENTO →
      (m.contadores i).comiendo < (m.contadores i).hambriento)


/-- Variant of `liberar_tenedores(i)` with the other tie-break: the same two stores, then
`probar` on the right neighbour first and on the left neighbour second. -/
def liberar_tenedores_der_izq (N : Nat) (m : Mesa) (i : Nat) : Mesa :=
  probar N
    (probar N
      { m with
        estados := escribir m.estados i Estado.PENSANDO
        contadores := escribir m.contadores i
          { m.contadores i with pensando := (m.contadores i).pensando + 1 } }
      ((i + 1) % N))
    ((i + N - 1) % N)


/-- The step is neither a call with index `id` nor a store of `true` to the flag: what the
other philosopher threads, each with its own index, and a driver that only clears the flag
can do. -/
def Paso.ajeno (id : Nat) : Paso → Bool
  | Paso.tomar j => decide (j ≠ id)
  | Paso.liberar j => decide (j ≠ id)
  | Paso.bandera b => !b

/-- All the steps recorded in the environment of one iteration are `Paso.ajeno id`. -/
def Entorno.ajeno (id : Nat) (en : Entorno) : Bool :=
  en.pensar.all (Paso.ajeno id) && en.espera.all (fun e => e.all (Paso.ajeno id)) &&
    en.antes_si.all (Paso.ajeno id) && en.comer.all (Paso.ajeno id) &&
    en.despues.all (Paso.ajeno id)

/-- The sequence is a prefix of `tomar id, liberar id, tomar id, liberar id, ...`. -/
def alterna (id : Nat) : List Paso → Bool
  | [] => true
  | [p] => decide (p = Paso.tomar id)
  | p :: q :: resto =>
    decide (p = Paso.tomar id) && decide (q = Paso.liberar id) && alterna id resto

/-- The table operations issued by `filosofo(id)`, as in `filosofo`, each paired with the
table on which it is issued: the request of `tomar_tenedores(id)` on the table at the end of
the thinking sleep, `liberar_tenedores(id)` on the table at the end of the eating sleep. -/
def filosofo_registro (N id : Nat) : Mesa → List Entorno → List (Paso × Mesa)
  | _, [] => []
  | m, en :: resto =>
    if esta_ejecutando m then
      match tomar_tenedores N (ejecutar N m en.pensar) id en.espera with
      | none => [(Paso.tomar id, ejecutar N m en.pensar)]
      | some m2 =>
        if esta_ejecutando (ejecutar N m2 en.antes_si) then
          (Paso.tomar id, ejecutar N m en.pensar) ::
            (Paso.liberar id, ejecutar N (ejecutar N m2 en.antes_si) en.comer) ::
              filosofo_registro N id
                (ejecutar N
                  (liberar_tenedores N (ejecutar N (ejecutar N m2 en.antes_si) en.comer) id)
                  en.despues)
                resto
        else
          (Paso.tomar id, ejecutar N m en.pensar) ::
            filosofo_registro N id (ejecutar N (ejecutar N m2 en.antes_si) en.despues) resto
    else []


end Filosofos

/-! Helper `format_bytes` of `basic_code/hilos_c.c`, `hilos_cpp.cpp`, `procesos_c.c` and
`procesos_cpp.cpp` (the four copies have the same loop). -/

namespace Formato

/-- Table `units` of `format_bytes`. -/
def units : List String := ["B", "KB", "MB", "GB"]

/-- Loop of `format_bytes`, at most `fuel` iterations:
`while (size >= 1024 && unit < 3) { size /= 1024; unit++; }`.
Returns `size` and `unit` when the loop exits or the fuel is used up.  The `double` variable
`size` is an exact rational here (dividing a `double` by 1024 only changes its exponent). -/
def format_bytes_bucle : Nat → Rat → Nat → Rat × Nat
  | 0, size, unit => (size, unit)
  | fuel + 1, size, unit =>
    if 1024 ≤ size ∧ unit < 3 then format_bytes_bucle fuel (size / 1024) (unit + 1)
    else (size, unit)

/-- Function `format_bytes(bytes)` up to the formatting call: the magnitude `size` and the
index `unit` of the unit that are printed as `"%.2f %s"` with `units[unit]`. -/
def format_bytes (fuel : Nat) (bytes : Int) : Rat × Nat :=
  format_bytes_bucle fuel (bytes : Rat) 0

end Formato

/-! Matrix product of `multi.c` and `clase3/multi.c` (the two copies of
`multiplicar_matrices` are the same).  A matrix `int **` is a map from row and column to the
entry; entries and the counter `long long *operaciones` are exact integers; the three
matrices are distinct allocations, as in `main`; a dimension is a natural number (a loop with
a bound that is not positive does not run).  The functions named `..._comprobado` run the same
loops on matrices with their allocated size (`Bloque`) and give `none` when an access falls
outside an allocation. -/

namespace Matrices

/-- Store `matriz[i][j] = v` in a matrix held as a map from row and column to the entry. -/
def poner (M : Nat → Nat → Int) (i j : Nat) (v : Int) : Nat → Nat → Int :=
  fun a b => if a = i ∧ b = j then v else M a b

/-- Innermost loop of `multiplicar_matrices`, its first `n` iterations `k = 0 .. n - 1`:
`matrizResultado[i][j] += matrizA[i][k] * matrizB[k][j]; (*operaciones) += 2;`.
The state is the result matrix and the counter `*operaciones`. -/
def bucle_k (A B : Nat → Nat → Int) (i j : Nat) :
    Nat → (Nat → Nat → Int) × Int → (Nat → Nat → Int) × Int
  | 0, st => st
  | n + 1, st =>
    (poner (bucle_k A B i j n st).1 i j
        ((bucle_k A B i j n st).1 i j + A i n * B n j),
      (bucle_k A B i j n st).2 + 2)

/-- Middle loop, its first `n` iterations `j = 0 .. n - 1`: `matrizResultado[i][j] = 0;` and
then the innermost loop over `k < columnas_A`. -/
def bucle_j (A B : Nat → Nat → Int) (columnas_A i : Nat) :
    Nat → (Nat → Nat → Int) × Int → (Nat → Nat → Int) × Int
  | 0, st => st
  | n + 1, st =>
    bucle_k A B i n columnas_A
      (poner (bucle_j A B columnas_A i n st).1 i n 0, (bucle_j A B columnas_A i n st).2)

/-- Outer loop, its first `n` iterations `i = 0 .. n - 1`. -/
def bucle_i (A B : Nat → Nat → Int) (columnas_A columnas_B : Nat) :
    Nat → (Nat → Nat → Int) × Int → (Nat → Nat → Int) × Int
  | 0, st => st
  | n + 1, st => bucle_j A B columnas_A n columnas_B (bucle_i A B columnas_A columnas_B n st)

/-- Function `multiplicar_matrices`: the result matrix and `*operaciones` after the call. -/
def multiplicar_matrices (filas_A columnas_A : Nat) (matrizA : Nat → Nat → Int)
    (_filas_B columnas_B : Nat) (matrizB : Nat → Nat → Int)
    (matrizResultado : Nat → Nat → Int) (operaciones : Int) : (Nat → Nat → Int) × Int :=
  bucle_i matrizA matrizB columnas_A columnas_B filas_A (matrizResultado, operaciones)

/-- A matrix as `main` allocates it: `filas` rows of `columnas` entries each, with the
contents of the rows.  An element exists only for a row below `filas` and a column below
`columnas`. -/
structure Bloque where
  filas : Nat
  columnas : Nat
  datos : Nat → Nat → Int

/-- Read `matriz[i][j]`: defined only inside the allocation. -/
def Bloque.leer (M : Bloque) (i j : Nat) : Option Int :=
  if i < M.filas ∧ j < M.columnas then some (M.datos i j) else none

/-- Store `matriz[i][j] = v`: defined only inside the allocation. -/
def Bloque.guardar (M : Bloque) (i j : Nat) (v : Int) : Option Bloque :=
  if i < M.filas ∧ j < M.columnas then some { M with datos := poner M.datos i j v } else none

/-- Innermost loop of `multiplicar_matrices` on allocated matrices, its first `n` iterations:
`matrizResultado[i][j] += matrizA[i][k] * matrizB[k][j]; (*operaciones) += 2;` with every array
access checked against the allocation.  `none`: an access outside an allocation was made. -/
def bucle_k_comprobado (A B : Bloque) (i j : Nat) :
    Nat → Option (Bloque × Int) → Option (Bloque × Int)
  | 0, st => st
  | n + 1, st =>
    (bucle_k_comprobado A B i j n st).bind fun s =>
      (A.leer i n).bind fun a =>
        (B.leer n j).bind fun b =>
          (s.1.leer i j).bind fun r =>
            (s.1.guardar i j (r + a * b)).bind fun R2 => some (R2, s.2 + 2)

/-- Middle loop on allocated matrices, its first `n` iterations: the checked store
`matrizResultado[i][j] = 0` and the innermost loop over `k < columnas_A`. -/
def bucle_j_comprobado (A B : Bloque) (columnas_A i : Nat) :
    Nat → Option (Bloque × Int) → Option (Bloque × Int)
  | 0, st => st
  | n + 1, st =>
    bucle_k_comprobado A B i n columnas_A
      ((bucle_j_comprobado A B columnas_A i n st).bind fun s =>
        (s.1.guardar i n 0).bind fun R2 => some (R2, s.2))

/-- Outer loop on allocated matrices, its first `n` iterations. -/
def bucle_i_comprobado (A B : Bloque) (columnas_A columnas_B : Nat) :
    Nat → Option (Bloque × Int) → Option (Bloque × Int)
  | 0, st => st
  | n + 1, st =>
    bucle_j_comprobado A B columnas_A n columnas_B
      (bucle_i_comprobado A B columnas_A columnas_B n st)

/-- Function `multiplicar_matrices` on allocated matrices: the same three loops with the same
bounds `filas_A`, `columnas_B`, `columnas_A`, every array access checked against the
allocation it addresses.  `none`: the call makes an access outside an allocation. -/
def multiplicar_matrices_comprobado (filas_A columnas_A : Nat) (matrizA : Bloque)
    (_filas_B columnas_B : Nat) (matrizB : Bloque) (matrizResultado : Bloque)
    (operaciones : Int) : Option (Bloque × Int) :=
  bucle_i_comprobado matrizA matrizB columnas_A columnas_B filas_A
    (some (matrizResultado, operaciones))

/-- Function `main` of `multi.c` from the parsed arguments on: both matrices are filled
(`entradasA`, `entradasB` stand for the values drawn by `rand() % 10`), the result matrix is
the memory returned by `malloc` (`basura`), `operaciones` starts at 0, and
`multiplicar_matrices` is called with the four dimensions as given on the command line. -/
def main (filas_A columnas_A filas_B columnas_B : Nat)
    (entradasA entradasB basura : Nat → Nat → Int) : (Nat → Nat → Int) × Int :=
  multiplicar_matrices filas_A columnas_A entradasA filas_B columnas_B entradasB basura 0

/-- Function `main` of `multi.c` from the parsed arguments on, with the matrices as it
allocates them: `matriz_A` is `filas_A x columnas_A`, `matriz_B` is `filas_B x columnas_B`,
the result is `filas_A x columnas_B` (its contents are what `malloc` returned, `basura`),
`operaciones` starts at 0 and `multiplicar_matrices` is called with the four dimensions of the
command line; no statement compares `columnas_A` with `filas_B`. -/
def main_comprobado (filas_A columnas_A filas_B columnas_B : Nat)
    (entradasA entradasB basura : Nat → Nat → Int) : Option (Bloque × Int) :=
  multiplicar_matrices_comprobado filas_A columnas_A
    { filas := filas_A, columnas := columnas_A, datos := entradasA } filas_B columnas_B
    { filas := filas_B, columnas := columnas_B, datos := entradasB }
    { filas := filas_A, columnas := columnas_B, datos := basura } 0

end Matrices

namespace Filosofos

/-- Read `estados[i]` with `i` the `int` of the source: an element of the array exists only
for `0 <= i < N`; `none` stands for an access outside the array, whose behaviour is undefined. -/
def leer_estado (N : Nat) (m : Mesa) (i : Int) : Option Estado :=
  if 0 ≤ i ∧ i < (N : Int) then some (m.estados i.toNat) else none

/-- Store `estados[i] = v`: defined only for `0 <= i < N`. -/
def guardar_estado (N : Nat) (m : Mesa) (i : Int) (v : Estado) : Option Mesa :=
  if 0 ≤ i ∧ i < (N : Int) then some { m with estados := escribir m.estados i.toNat v }
  else none

/-- Update of `contadores[i]` by one of the increments `contadores[i].x++`: defined only for
`0 <= i < N`. -/
def guardar_contadores (N : Nat) (m : Mesa) (i : Int) (f : Contadores → Contadores) :
    Option Mesa :=
  if 0 ≤ i ∧ i < (N : Int) then
    some { m with contadores := escribir m.contadores i.toNat (f (m.contadores i.toNat)) }
  else none

/-- Body of `void probar(int i)` with every array access checked against the array, the
conditions evaluated left to right as `&&` does, and `%` the truncating remainder of `int`. -/
def probar_comprobado (N : Nat) (m : Mesa) (i : Int) : Option Mesa :=
  (leer_estado N m i).bind fun e =>
    if e = Estado.HAMBRIENTO then
      (leer_estado N m (Int.tmod (i + (N : Int) - 1) (N : Int))).bind fun izq =>
        if izq ≠ Estado.COMIENDO then
          (leer_estado N m (Int.tmod (i + 1) (N : Int))).bind fun der =>
            if der ≠ Estado.COMIENDO then
              (guardar_estado N m i Estado.COMIENDO).bind fun m1 =>
                guardar_contadores N m1 i (fun c => { c with comiendo := c.comiendo + 1 })
            else some m
        else some m
    else some m

/-- Request phase of `tomar_tenedores(int i)` with every array access checked against the
array.  `none`: the call makes an access outside an array. -/
def tomar_tenedores_solicitud_comprobado (N : Nat) (m : Mesa) (i : Int) : Option Mesa :=
  (guardar_estado N m i Estado.HAMBRIENTO).bind fun m1 =>
    (guardar_contadores N m1 i (fun c => { c with hambriento := c.hambriento + 1 })).bind
      fun m2 => probar_comprobado N m2 i

/-- Body of `liberar_tenedores(int i)` with every array access checked against the array.
`none`: the call makes an access outside an array. -/
def liberar_tenedores_comprobado (N : Nat) (m : Mesa) (i : Int) : Option Mesa :=
  (guardar_estado N m i Estado.PENSANDO).bind fun m1 =>
    (guardar_contadores N m1 i (fun c => { c with pensando := c.pensando + 1 })).bind
      fun m2 =>
        (probar_comprobado N m2 (Int.tmod (i + (N : Int) - 1) (N : Int))).bind fun m3 =>
          probar_comprobado N m3 (Int.tmod (i + 1) (N : Int))


/-! ## Ring arithmetic -/

theorem der_eq {N i : Nat} (hi : i < N) : (i + 1) % N = if i + 1 = N then 0 else i + 1 := by
  split_ifs with h
  · rw [h, Nat.mod_self]
  · exact Nat.mod_eq_of_lt (by omega)

theorem izq_eq {N i : Nat} (hi : i < N) : (i + N - 1) % N = if i = 0 then N - 1 else i - 1 := by
  split_ifs with h
  · subst h
    rw [Nat.zero_add]
    exact Nat.mod_eq_of_lt (by omega)
  · have h1 : i + N - 1 = (i - 1) + N := by omega
    rw [h1, Nat.add_mod_right]
    exact Nat.mod_eq_of_lt (by omega)

theorem der_lt {N i : Nat} (hi : i < N) : (i + 1) % N < N :=
  Nat.mod_lt _ (by omega)

theorem izq_lt {N i : Nat} (hi : i < N) : (i + N - 1) % N < N :=
  Nat.mod_lt _ (by omega)

theorem der_ne {N i : Nat} (hN : 2 ≤ N) (hi : i < N) : (i + 1) % N ≠ i := by
  rw [der_eq hi]; split_ifs <;> omega

theorem izq_ne {N i : Nat} (hN : 2 ≤ N) (hi : i < N) : (i + N - 1) % N ≠ i := by
  rw [izq_eq hi]; split_ifs <;> omega

theorem izq_der {N i : Nat} (hi : i < N) : ((i + 1) % N + N - 1) % N = i := by
  rw [izq_eq (der_lt hi), der_eq hi]
  split_ifs <;> first | omega | contradiction

theorem der_izq {N i : Nat} (hi : i < N) : ((i + N - 1) % N + 1) % N = i := by
  rw [der_eq (izq_lt hi), izq_eq hi]
  split_ifs <;> omega

theorem izq_ne_der {N i : Nat} (hN : 3 ≤ N) (hi : i < N) : (i + N - 1) % N ≠ (i + 1) % N := by
  rw [der_eq hi, izq_eq hi]; split_ifs <;> omega

/-! ## Effect of `probar` -/

theorem probar_si {N : Nat} {m : Mesa} {k : Nat} (h : PuedeComer N m k) :
    probar N m k =
      { m with
        estados := escribir m.estados k Estado.COMIENDO
        contadores := escribir m.contadores k
          { m.contadores k with comiendo := (m.contadores k).comiendo + 1 } } := by
  unfold probar; exact if_pos h

theorem probar_no {N : Nat} {m : Mesa} {k : Nat} (h : ¬ PuedeComer N m k) :
    probar N m k = m := by
  unfold probar; exact if_neg h

theorem probar_running (N : Nat) (m : Mesa) (k : Nat) : (probar N m k).running = m.running := by
  by_cases h : PuedeComer N m k
  · rw [probar_si h]
  · rw [probar_no h]

theorem probar_estados_otro (N : Nat) (m : Mesa) {k j : Nat} (hj : j ≠ k) :
    (probar N m k).estados j = m.estados j := by
  by_cases h : PuedeComer N m k
  · rw [probar_si h]; simp [escribir, hj]
  · rw [probar_no h]

theorem probar_contadores_otro (N : Nat) (m : Mesa) {k j : Nat} (hj : j ≠ k) :
    (probar N m k).contadores j = m.contadores j := by
  by_cases h : PuedeComer N m k
  · rw [probar_si h]; simp [escribir, hj]
  · rw [probar_no h]

theorem probar_mono (N : Nat) (m : Mesa) (k : Nat) {j : Nat}
    (hj : m.estados j = Estado.COMIENDO) : (probar N m k).estados j = Estado.COMIENDO := by
  by_cases h : PuedeComer N m k
  · rw [probar_si h]
    by_cases hjk : j = k
    · simp [escribir, hjk]
    · simp [escribir, hjk, hj]
  · rw [probar_no h]; exact hj

theorem probar_exclusion {N : Nat} (hN : 2 ≤ N) {m : Mesa} {k : Nat} (hk : k < N)
    (h1 : ExclusionMutua N m) : ExclusionMutua N (probar N m k) := by
  by_cases h : PuedeComer N m k
  · rw [probar_si h]
    obtain ⟨_, hizq, hder⟩ := h
    intro i hi ⟨ha, hb⟩
    simp only [escribir] at ha hb
    by_cases hik : i = k
    · subst hik
      rw [if_neg (der_ne hN hi)] at hb
      exact hder hb
    · rw [if_neg hik] at ha
      by_cases hdk : (i + 1) % N = k
      · have : (k + N - 1) % N = i := by rw [← hdk]; exact izq_der hi
        rw [this] at hizq
        exact hizq ha
      · rw [if_neg hdk] at hb
        exact h1 i hi ⟨ha, hb⟩
  · rw [probar_no h]; exact h1

theorem probar_atiende (N : Nat) (m : Mesa) (k : Nat) :
    AtendidoEn N (probar N m k) k := by
  by_cases h : PuedeComer N m k
  · rw [probar_si h]
    intro hh
    simp [escribir] at hh
  · rw [probar_no h]
    intro hh
    by_contra hc
    push_neg at hc
    exact h ⟨hh, hc.1, hc.2⟩

theorem probar_conserva_atendido (N : Nat) (m : Mesa) (k : Nat) {j : Nat}
    (h : AtendidoEn N m j) : AtendidoEn N (probar N m k) j := by
  by_cases hjk : j = k
  · subst hjk; exact probar_atiende N m j
  · intro hh
    rw [probar_estados_otro N m hjk] at hh
    rcases h hh with h3 | h3
    · exact Or.inl (probar_mono N m k h3)
    · exact Or.inr (probar_mono N m k h3)

theorem probar_promueve_iff (N : Nat) (m : Mesa) (k : Nat) :
    (m.estados k ≠ Estado.COMIENDO ∧ (probar N m k).estados k = Estado.COMIENDO) ↔
      PuedeComer N m k := by
  constructor
  · rintro ⟨hantes, hdespues⟩
    by_contra hno
    rw [probar_no hno] at hdespues
    exact hantes hdespues
  · intro hp
    refine ⟨?_, ?_⟩
    · rw [hp.1]; decide
    · rw [probar_si hp]; simp [escribir]

theorem probar_hambriento (N : Nat) (m : Mesa) (k j : Nat) :
    ((probar N m k).contadores j).hambriento = (m.contadores j).hambriento := by
  by_cases h : PuedeComer N m k
  · rw [probar_si h]
    by_cases hj : j = k
    · subst hj; simp [escribir]
    · simp [escribir, hj]
  · rw [probar_no h]

theorem probar_pensando (N : Nat) (m : Mesa) (k j : Nat) :
    ((probar N m k).contadores j).pensando = (m.contadores j).pensando := by
  by_cases h : PuedeComer N m k
  · rw [probar_si h]
    by_cases hj : j = k
    · subst hj; simp [escribir]
    · simp [escribir, hj]
  · rw [probar_no h]

/-! ## The two invariants are preserved by every atomic step -/

theorem invariante_congr {N : Nat} {m1 m2 : Mesa} (h : m2.estados = m1.estados)
    (hi : Invariante N m1) : Invariante N m2 := by
  unfold Invariante ExclusionMutua SinPromocionPerdida AtendidoEn at *
  rw [h]; exact hi

theorem exclusion_izq {N : Nat} {m : Mesa} (h1 : ExclusionMutua N m) {i : Nat} (hi : i < N)
    (hc : m.estados i = Estado.COMIENDO) : m.estados ((i + N - 1) % N) ≠ Estado.COMIENDO := by
  intro hizq
  have h := h1 ((i + N - 1) % N) (izq_lt hi)
  rw [der_izq hi] at h
  exact h ⟨hizq, hc⟩

theorem exclusion_der {N : Nat} {m : Mesa} (h1 : ExclusionMutua N m) {i : Nat} (hi : i < N)
    (hc : m.estados i = Estado.COMIENDO) : m.estados ((i + 1) % N) ≠ Estado.COMIENDO :=
  fun hder => h1 i hi ⟨hc, hder⟩

/-- Storing a state other than `COMIENDO` keeps mutual exclusion. -/
theorem escribir_exclusion {N : Nat} {m : Mesa} (h1 : ExclusionMutua N m) (i : Nat) (v : Estado)
    (hv : v ≠ Estado.COMIENDO) (c : Nat → Contadores) :
    ExclusionMutua N { m with estados := escribir m.estados i v, contadores := c } := by
  intro j hj ⟨ha, hb⟩
  simp only [escribir] at ha hb
  split_ifs at ha hb with h2 h3 h3
  · exact hv ha
  · exact hv ha
  · exact hv hb
  · exact h1 j hj ⟨ha, hb⟩

/-- A store into slot `i` keeps I2 at any other slot `j`, provided `i` is not a neighbour of
`j` whenever `i` was `COMIENDO` before the store. -/
theorem escribir_atendido {N : Nat} {m : Mesa} {i j : Nat} (v : Estado) (c : Nat → Contadores)
    (hji : j ≠ i) (hno : m.estados i = Estado.COMIENDO → (j + N - 1) % N ≠ i ∧ (j + 1) % N ≠ i)
    (h : AtendidoEn N m j) :
    AtendidoEn N { m with estados := escribir m.estados i v, contadores := c } j := by
  intro hh
  simp only [escribir, if_neg hji] at hh
  simp only [escribir]
  rcases h hh with h3 | h3
  · left
    by_cases h4 : (j + N - 1) % N = i
    · rw [h4] at h3; exact absurd h4 (hno h3).1
    · rw [if_neg h4]; exact h3
  · right
    by_cases h4 : (j + 1) % N = i
    · rw [h4] at h3; exact absurd h4 (hno h3).2
    · rw [if_neg h4]; exact h3

theorem solicitud_invariante {N : Nat} (hN : 2 ≤ N) {m : Mesa} {i : Nat} (hi : i < N)
    (h : Invariante N m) : Invariante N (tomar_tenedores_solicitud N m i) := by
  obtain ⟨h1, h2⟩ := h
  unfold tomar_tenedores_solicitud
  by_cases hc : m.estados i = Estado.COMIENDO
  · -- an eating philosopher that asks again is promoted again at once
    have hp : PuedeComer N
        { m with
          estados := escribir m.estados i Estado.HAMBRIENTO
          contadores := escribir m.contadores i
            { m.contadores i with hambriento := (m.contadores i).hambriento + 1 } } i := by
      refine ⟨by simp [escribir], ?_, ?_⟩
      · simp only [escribir, if_neg (izq_ne hN hi)]
        exact exclusion_izq h1 hi hc
      · simp only [escribir, if_neg (der_ne hN hi)]
        exact exclusion_der h1 hi hc
    rw [probar_si hp]
    refine invariante_congr ?_ ⟨h1, h2⟩
    funext j
    simp only [escribir]
    split_ifs with hj
    · rw [hj, hc]
    · rfl
  · refine ⟨probar_exclusion hN hi (escribir_exclusion h1 i _ (by decide) _), ?_⟩
    intro j hj
    by_cases hji : j = i
    · subst hji; exact probar_atiende N _ j
    · exact probar_conserva_atendido N _ i
        (escribir_atendido _ _ hji (fun h3 => absurd h3 hc) (h2 j hj))

theorem liberar_invariante {N : Nat} (hN : 2 ≤ N) {m : Mesa} {i : Nat} (hi : i < N)
    (h : Invariante N m) : Invariante N (liberar_tenedores N m i) := by
  obtain ⟨h1, h2⟩ := h
  unfold liberar_tenedores
  refine ⟨probar_exclusion hN (der_lt hi) (probar_exclusion hN (izq_lt hi)
    (escribir_exclusion h1 i _ (by decide) _)), ?_⟩
  intro j hj
  by_cases hjr : j = (i + 1) % N
  · rw [hjr]; exact probar_atiende N _ _
  · refine probar_conserva_atendido N _ _ ?_
    by_cases hjl : j = (i + N - 1) % N
    · rw [hjl]; exact probar_atiende N _ _
    · refine probar_conserva_atendido N _ _ ?_
      by_cases hji : j = i
      · subst hji
        intro hh
        simp [escribir] at hh
      · refine escribir_atendido _ _ hji (fun _ => ⟨?_, ?_⟩) (h2 j hj)
        · intro h4
          apply hjr
          rw [← h4, der_izq hj]
        · intro h4
          apply hjl
          rw [← h4, izq_der hj]

theorem inicial_invariante (N : Nat) (r : Bool) : Invariante N (Mesa.inicial r) := by
  constructor
  · intro i _ ⟨ha, _⟩
    simp [Mesa.inicial] at ha
  · intro k _ hh
    simp [Mesa.inicial] at hh

theorem paso_invariante {N : Nat} (hN : 2 ≤ N) {m : Mesa} (p : Paso) (hp : p.enRango N = true)
    (h : Invariante N m) : Invariante N (paso N m p) := by
  cases p with
  | tomar i => exact solicitud_invariante hN (by simpa [Paso.enRango] using hp) h
  | liberar i => exact liberar_invariante hN (by simpa [Paso.enRango] using hp) h
  | bandera b => exact invariante_congr rfl h

theorem ejecutar_invariante {N : Nat} (hN : 2 ≤ N) (ps : List Paso) :
    ∀ m : Mesa, (∀ p ∈ ps, p.enRango N = true) → Invariante N m → Invariante N (ejecutar N m ps) := by
  induction ps with
  | nil => intro m _ h; exact h
  | cons p ps ih =>
    intro m hps h
    exact ih (paso N m p) (fun q hq => hps q (List.mem_cons_of_mem p hq))
      (paso_invariante hN p (hps p (List.mem_cons_self p ps)) h)

theorem alcanzable_invariante {N : Nat} (hN : 2 ≤ N) {m : Mesa} (h : Alcanzable N m) :
    Invariante N m := by
  obtain ⟨r, ps, hps, rfl⟩ := h
  exact ejecutar_invariante hN ps _ hps (inicial_invariante N r)

/-! ## The wait loop -/

theorem guarda_false_iff (m : Mesa) (i : Nat) :
    tomar_tenedores_guarda m i = false ↔ (m.estados i = Estado.COMIENDO ∨ m.running = false) := by
  unfold tomar_tenedores_guarda
  cases hr : m.running <;> cases he : m.estados i <;> simp

/-- The wait loop returns at once, whatever the other threads do, when its guard is false. -/
theorem espera_inmediata (N i : Nat) (m : Mesa) (entorno : List (List Paso))
    (h : tomar_tenedores_guarda m i = false) :
    tomar_tenedores_espera N i m entorno = some m := by
  cases entorno <;> simp [tomar_tenedores_espera, h]

/-- A table returned by the wait loop has a false guard and is reached from the table at the
start of the loop by the steps of the other threads. -/
theorem espera_some {N i : Nat} (entorno : List (List Paso)) :
    ∀ (m mf : Mesa), tomar_tenedores_espera N i m entorno = some mf →
      tomar_tenedores_guarda mf i = false ∧
        ∃ ps : List Paso, (∀ p ∈ ps, ∃ e ∈ entorno, p ∈ e) ∧ ejecutar N m ps = mf := by
  induction entorno with
  | nil =>
    intro m mf h
    unfold tomar_tenedores_espera at h
    split_ifs at h with hg
    simp only [Option.some.injEq] at h
    subst h
    exact ⟨by simpa using hg, [], by simp, rfl⟩
  | cons e resto ih =>
    intro m mf h
    unfold tomar_tenedores_espera at h
    split_ifs at h with hg
    · obtain ⟨h1, ps, hps, hej⟩ := ih (ejecutar N m e) mf h
      refine ⟨h1, e ++ ps, ?_, ?_⟩
      · intro p hp
        rcases List.mem_append.mp hp with h2 | h2
        · exact ⟨e, List.mem_cons_self e resto, h2⟩
        · obtain ⟨e2, he2, hpe⟩ := hps p h2
          exact ⟨e2, List.mem_cons_of_mem e he2, hpe⟩
      · rw [← hej]
        clear h hg hej ih hps
        induction e generalizing m with
        | nil => rfl
        | cons q qs ihq => exact ihq (paso N m q)
    · simp only [Option.some.injEq] at h
      subst h
      exact ⟨by simpa using hg, [], by simp, rfl⟩

/-! ## Counters along a disciplined execution -/

theorem probar_cuenta (N : Nat) (m : Mesa) (k : Nat) {i c : Nat} (h : Cuenta m i c) :
    Cuenta (probar N m k) i c := by
  by_cases hp : PuedeComer N m k
  · rw [probar_si hp]
    by_cases hik : i = k
    · subst hik
      obtain ⟨hpens, _, hH, _⟩ := h
      obtain ⟨hh, hc⟩ := hH hp.1
      refine ⟨?_, ?_, ?_, ?_⟩
      · simpa [escribir] using hpens
      · intro h0; simp [escribir] at h0
      · intro h0; simp [escribir] at h0
      · intro _; simp [escribir, hh, hc]
    · simpa [Cuenta, escribir, hik] using h
  · rw [probar_no hp]; exact h

theorem ciclos_cons (i : Nat) (p : Paso) (ps : List Paso) :
    ciclos i (p :: ps) = ciclos i [p] + ciclos i ps := by
  cases p <;> simp [ciclos]

theorem paso_cuenta (N : Nat) (m : Mesa) (p : Paso) {i c : Nat} (hp : p.permitido N m = true)
    (h : Cuenta m i c) : Cuenta (paso N m p) i (c + ciclos i [p]) := by
  cases p with
  | tomar j =>
    simp only [Paso.permitido, Bool.and_eq_true, decide_eq_true_eq] at hp
    simp only [paso, ciclos, Nat.add_zero, tomar_tenedores_solicitud]
    apply probar_cuenta
    by_cases hji : i = j
    · subst hji
      obtain ⟨hpens, hP, _, _⟩ := h
      obtain ⟨hh, hc⟩ := hP hp.2
      refine ⟨?_, ?_, ?_, ?_⟩
      · simpa [escribir] using hpens
      · intro h0; simp [escribir] at h0
      · intro _; simp [escribir, hh, hc]
      · intro h0; simp [escribir] at h0
    · simpa [Cuenta, escribir, hji] using h
  | liberar j =>
    simp only [Paso.permitido, Bool.and_eq_true, decide_eq_true_eq] at hp
    simp only [paso, ciclos, Nat.add_zero, liberar_tenedores]
    apply probar_cuenta
    apply probar_cuenta
    by_cases hji : i = j
    · subst hji
      obtain ⟨hpens, _, _, hC⟩ := h
      obtain ⟨hh, hc⟩ := hC hp.2
      refine ⟨?_, ?_, ?_, ?_⟩
      · simp [escribir, hpens]
      · intro _; simp [escribir, hh, hc]
      · intro h0; simp [escribir] at h0
      · intro h0; simp [escribir] at h0
    · have hji2 : ¬ j = i := fun h3 => hji h3.symm
      simpa [Cuenta, escribir, hji, hji2] using h
  | bandera b =>
    simpa [paso, ciclos, Cuenta] using h

theorem ejecutar_cuenta (N : Nat) (i : Nat) (ps : List Paso) :
    ∀ (m : Mesa) (c : Nat), disciplinada N m ps = true → Cuenta m i c →
      Cuenta (ejecutar N m ps) i (c + ciclos i ps) := by
  induction ps with
  | nil => intro m c _ h; simpa [ejecutar, ciclos] using h
  | cons p ps ih =>
    intro m c hd h
    simp only [disciplinada, Bool.and_eq_true] at hd
    have h2 := ih (paso N m p) (c + ciclos i [p]) hd.2 (paso_cuenta N m p hd.1 h)
    rw [ciclos_cons, ← Nat.add_assoc]
    exact h2

theorem inicial_cuenta (r : Bool) (i : Nat) : Cuenta (Mesa.inicial r) i 0 := by
  simp [Cuenta, Mesa.inicial]

/-! ## Release followed by a new request -/

theorem solicitud_estados_otro (N : Nat) (m : Mesa) {i j : Nat} (hj : j ≠ i) :
    (tomar_tenedores_solicitud N m i).estados j = m.estados j := by
  unfold tomar_tenedores_solicitud
  rw [probar_estados_otro N _ hj]
  simp [escribir, hj]

theorem solicitud_mono (N : Nat) (m : Mesa) {i j : Nat} (hj : j ≠ i)
    (hc : m.estados j = Estado.COMIENDO) :
    (tomar_tenedores_solicitud N m i).estados j = Estado.COMIENDO := by
  rw [solicitud_estados_otro N m hj]; exact hc


/-! ## A schedule that starves a philosopher -/

theorem ejecutar_append (N : Nat) (ps qs : List Paso) :
    ∀ m : Mesa, ejecutar N m (ps ++ qs) = ejecutar N (ejecutar N m ps) qs := by
  induction ps with
  | nil => intro m; rfl
  | cons p ps ih => intro m; exact ih (paso N m p)

theorem hambriento_durante_append (N v : Nat) (ps qs : List Paso) :
    ∀ m : Mesa, hambriento_durante N v m (ps ++ qs)
      = (hambriento_durante N v m ps && hambriento_durante N v (ejecutar N m ps) qs) := by
  induction ps with
  | nil => intro m; simp [hambriento_durante, ejecutar]
  | cons p ps ih =>
    intro m
    show (decide ((paso N m p).estados v = Estado.HAMBRIENTO) &&
      hambriento_durante N v (paso N m p) (ps ++ qs)) = _
    rw [ih]
    simp only [hambriento_durante, ejecutar, Bool.and_assoc]

theorem disciplinada_append (N : Nat) (ps qs : List Paso) :
    ∀ m : Mesa, disciplinada N m (ps ++ qs)
      = (disciplinada N m ps && disciplinada N (ejecutar N m ps) qs) := by
  induction ps with
  | nil => intro m; simp [disciplinada, ejecutar]
  | cons p ps ih =>
    intro m
    show (p.permitido N m && disciplinada N (paso N m p) (ps ++ qs)) = _
    rw [ih]
    simp only [disciplinada, ejecutar, Bool.and_assoc]

theorem ciclos_append (i : Nat) (ps qs : List Paso) :
    ciclos i (ps ++ qs) = ciclos i ps + ciclos i qs := by
  induction ps with
  | nil => simp [ciclos]
  | cons p ps ih =>
    rw [List.cons_append, ciclos_cons, ih, ciclos_cons i p ps, Nat.add_assoc]

/-- One round of the starving schedule, on any table with the states of `mesa_inanicion`:
the states come back, philosopher 1 is hungry after every step, the callers respect the
discipline, 0 and 2 have eaten once more and 1 has not. -/
theorem ciclo_inanicion_efecto (m : Mesa) (h : m.estados = mesa_inanicion.estados) :
    (ejecutar 5 m ciclo_inanicion).estados = mesa_inanicion.estados ∧
      hambriento_durante 5 1 m ciclo_inanicion = true ∧
      disciplinada 5 m ciclo_inanicion = true ∧
      ((ejecutar 5 m ciclo_inanicion).contadores 0).comiendo = (m.contadores 0).comiendo + 1 ∧
      ((ejecutar 5 m ciclo_inanicion).contadores 2).comiendo = (m.contadores 2).comiendo + 1 ∧
      ((ejecutar 5 m ciclo_inanicion).contadores 1).comiendo = (m.contadores 1).comiendo := by
  obtain ⟨e, r, c⟩ := m
  simp only at h
  subst h
  refine ⟨?_, ?_, ?_, ?_, ?_, ?_⟩
  · funext j
    simp [ejecutar, paso, ciclo_inanicion, mesa_inanicion, tomar_tenedores_solicitud,
      liberar_tenedores, probar, escribir, Mesa.inicial]
    split_ifs <;> first | rfl | omega
  · simp [hambriento_durante, paso, ciclo_inanicion, mesa_inanicion, ejecutar,
      tomar_tenedores_solicitud, liberar_tenedores, probar, escribir, Mesa.inicial]
  · simp [disciplinada, Paso.permitido, paso, ciclo_inanicion, mesa_inanicion, ejecutar,
      tomar_tenedores_solicitud, liberar_tenedores, probar, escribir, Mesa.inicial]
  · simp [ejecutar, paso, ciclo_inanicion, mesa_inanicion, tomar_tenedores_solicitud,
      liberar_tenedores, probar, escribir, Mesa.inicial]
  · simp [ejecutar, paso, ciclo_inanicion, mesa_inanicion, tomar_tenedores_solicitud,
      liberar_tenedores, probar, escribir, Mesa.inicial]
  · simp [ejecutar, paso, ciclo_inanicion, mesa_inanicion, tomar_tenedores_solicitud,
      liberar_tenedores, probar, escribir, Mesa.inicial]

/-- Any number of rounds of the starving schedule. -/
theorem repetir_inanicion_efecto (n : Nat) :
    ∀ m : Mesa, m.estados = mesa_inanicion.estados →
      (ejecutar 5 m (repetir n ciclo_inanicion)).estados = mesa_inanicion.estados ∧
        hambriento_durante 5 1 m (repetir n ciclo_inanicion) = true ∧
        disciplinada 5 m (repetir n ciclo_inanicion) = true ∧
        ((ejecutar 5 m (repetir n ciclo_inanicion)).contadores 0).comiendo
          = (m.contadores 0).comiendo + (n : Int) ∧
        ((ejecutar 5 m (repetir n ciclo_inanicion)).contadores 2).comiendo
          = (m.contadores 2).comiendo + (n : Int) ∧
        ((ejecutar 5 m (repetir n ciclo_inanicion)).contadores 1).comiendo
          = (m.contadores 1).comiendo := by
  induction n with
  | zero =>
    intro m h
    simp [repetir, ejecutar, hambriento_durante, disciplinada, h]
  | succ k ih =>
    intro m h
    obtain ⟨a1, a2, a3, a4, a5, a6⟩ := ciclo_inanicion_efecto m h
    obtain ⟨b1, b2, b3, b4, b5, b6⟩ := ih (ejecutar 5 m ciclo_inanicion) a1
    simp only [repetir, ejecutar_append, hambriento_durante_append, disciplinada_append]
    refine ⟨b1, by simp [a2, b2], by simp [a3, b3], ?_, ?_, ?_⟩
    · rw [b4, a4]; push_cast; ring
    · rw [b5, a5]; push_cast; ring
    · rw [b6, a6]

theorem ciclos_repetir_inanicion (n : Nat) :
    ciclos 0 (repetir n ciclo_inanicion) = n ∧ ciclos 2 (repetir n ciclo_inanicion) = n := by
  induction n with
  | zero => simp [repetir, ciclos]
  | succ k ih =>
    simp only [repetir, ciclos_append, ih.1, ih.2]
    simp [ciclo_inanicion, ciclos]
    omega

theorem repetir_en_rango (n : Nat) :
    ∀ p ∈ repetir n ciclo_inanicion,
      p.enRango 5 = true ∧ (p.de 0 = true ∨ p.de 2 = true) := by
  induction n with
  | zero => intro p hp; simp [repetir] at hp
  | succ k ih =>
    intro p hp
    simp only [repetir, List.mem_append] at hp
    rcases hp with h | h
    · revert p; decide
    · exact ih p h

/-! ## The flag under the steps of the table -/

theorem solicitud_running (N : Nat) (m : Mesa) (i : Nat) :
    (tomar_tenedores_solicitud N m i).running = m.running := by
  unfold tomar_tenedores_solicitud
  rw [probar_running]

theorem liberar_running (N : Nat) (m : Mesa) (i : Nat) :
    (liberar_tenedores N m i).running = m.running := by
  unfold liberar_tenedores
  rw [probar_running, probar_running]

/-- The steps of the philosopher threads never change the flag. -/
theorem ejecutar_running_filosofos (N : Nat) (ps : List Paso) :
    ∀ m : Mesa, (∀ p ∈ ps, p.deFilosofo = true) → (ejecutar N m ps).running = m.running := by
  induction ps with
  | nil => intro m _; rfl
  | cons p ps ih =>
    intro m h
    have hp := h p (List.mem_cons_self p ps)
    rw [ejecutar, ih (paso N m p) (fun q hq => h q (List.mem_cons_of_mem p hq))]
    cases p with
    | tomar i => exact solicitud_running N m i
    | liberar i => exact liberar_running N m i
    | bandera b => simp [Paso.deFilosofo] at hp

/-- A flag that is false stays false as long as nobody stores `true` to it. -/
theorem ejecutar_running_false (N : Nat) (ps : List Paso) :
    ∀ m : Mesa, m.running = false → (∀ p ∈ ps, p ≠ Paso.bandera true) →
      (ejecutar N m ps).running = false := by
  induction ps with
  | nil => intro m hm _; exact hm
  | cons p ps ih =>
    intro m hm h
    have hp := h p (List.mem_cons_self p ps)
    refine ih (paso N m p) ?_ (fun q hq => h q (List.mem_cons_of_mem p hq))
    cases p with
    | tomar i => rw [paso, solicitud_running]; exact hm
    | liberar i => rw [paso, liberar_running]; exact hm
    | bandera b =>
      cases b with
      | false => rfl
      | true => exact absurd rfl hp

/-- While the flag is true and only philosophers act, the display loop of `main` does not end. -/
theorem main_bucle_no_termina (N : Nat) (entorno : List (List Paso)) :
    ∀ m : Mesa, m.running = true → (∀ e ∈ entorno, ∀ p ∈ e, p.deFilosofo = true) →
      main_bucle N m entorno = none := by
  induction entorno with
  | nil => intro m hm _; simp [main_bucle, hm]
  | cons e resto ih =>
    intro m hm h
    rw [main_bucle, if_pos hm]
    refine ih _ ?_ (fun e2 he2 => h e2 (List.mem_cons_of_mem e he2))
    rw [ejecutar_running_filosofos N e _ (h e (List.mem_cons_self e resto))]
    exact hm


/-! ## Counters without caller discipline -/

theorem probar_coherente (N : Nat) (m : Mesa) (k : Nat) {i : Nat} (h : Coherente m i) :
    Coherente (probar N m k) i := by
  by_cases hp : PuedeComer N m k
  · rw [probar_si hp]
    by_cases hik : i = k
    · subst hik
      obtain ⟨h1, _, h3⟩ := h
      have h4 := h3 hp.1
      refine ⟨by simpa [escribir] using h1, ?_, ?_⟩
      · simp only [escribir, if_pos]; omega
      · intro h0; simp [escribir] at h0
    · simpa [Coherente, escribir, hik] using h
  · rw [probar_no hp]; exact h

theorem paso_coherente (N : Nat) (m : Mesa) (p : Paso) {i : Nat} (h : Coherente m i) :
    Coherente (paso N m p) i := by
  cases p with
  | tomar j =>
    simp only [paso, tomar_tenedores_solicitud]
    apply probar_coherente
    by_cases hji : i = j
    · subst hji
      obtain ⟨h1, h2, _⟩ := h
      refine ⟨by simpa [escribir] using h1, ?_, ?_⟩
      · simp only [escribir, if_pos]; omega
      · intro _; simp only [escribir, if_pos]; omega
    · simpa [Coherente, escribir, hji] using h
  | liberar j =>
    simp only [paso, liberar_tenedores]
    apply probar_coherente
    apply probar_coherente
    by_cases hji : i = j
    · subst hji
      obtain ⟨h1, h2, _⟩ := h
      refine ⟨?_, ?_, ?_⟩
      · simp only [escribir, if_pos]; omega
      · simpa [escribir] using h2
      · intro h0; simp [escribir] at h0
    · simpa [Coherente, escribir, hji] using h
  | bandera b =>
    simpa [paso, Coherente] using h

theorem ejecutar_coherente (N : Nat) (i : Nat) (ps : List Paso) :
    ∀ m : Mesa, Coherente m i → Coherente (ejecutar N m ps) i := by
  induction ps with
  | nil => intro m h; exact h
  | cons p ps ih => intro m h; exact ih (paso N m p) (paso_coherente N m p h)

theorem inicial_coherente (r : Bool) (i : Nat) : Coherente (Mesa.inicial r) i := by
  simp [Coherente, Mesa.inicial]


/-! ## Order of the two promotions in a release, and the flag in a request -/

theorem puede_comer_tras_probar (N : Nat) (m : Mesa) {a b : Nat} (hab : b ≠ a)
    (h3 : (b + N - 1) % N ≠ a) (h4 : (b + 1) % N ≠ a) :
    PuedeComer N (probar N m a) b ↔ PuedeComer N m b := by
  unfold PuedeComer
  rw [probar_estados_otro N m hab, probar_estados_otro N m h3, probar_estados_otro N m h4]

/-- Two promotions on slots that are neither equal nor ring-adjacent commute. -/
theorem probar_conmuta (N : Nat) (m : Mesa) {a b : Nat} (hab : a ≠ b)
    (h1 : (a + N - 1) % N ≠ b) (h2 : (a + 1) % N ≠ b)
    (h3 : (b + N - 1) % N ≠ a) (h4 : (b + 1) % N ≠ a) :
    probar N (probar N m a) b = probar N (probar N m b) a := by
  have eb := puede_comer_tras_probar N m (Ne.symm hab) h3 h4
  have ea := puede_comer_tras_probar N m hab h1 h2
  by_cases ha : PuedeComer N m a <;> by_cases hb : PuedeComer N m b
  · rw [probar_si (eb.mpr hb), probar_si (ea.mpr ha), probar_si ha, probar_si hb]
    simp only [Mesa.mk.injEq, and_true, true_and]
    constructor
    · funext j
      simp only [escribir]
      split_ifs <;> rfl
    · funext j
      simp only [escribir, if_neg hab, if_neg (Ne.symm hab)]
      split_ifs with h5 h6 <;> first | rfl | (exfalso; omega)
  · rw [probar_no (fun h => hb (eb.mp h)), probar_no hb]
  · rw [probar_no ha, probar_no (fun h => ha (ea.mp h))]
  · rw [probar_no (fun h => hb (eb.mp h)), probar_no hb, probar_no ha]

theorem probar_con_running (N : Nat) (m : Mesa) (k : Nat) (r : Bool) :
    probar N { m with running := r } k = { probar N m k with running := r } := by
  unfold probar
  split_ifs <;> rfl

theorem solicitud_con_running (N : Nat) (m : Mesa) (i : Nat) (r : Bool) :
    tomar_tenedores_solicitud N { m with running := r } i
      = { tomar_tenedores_solicitud N m i with running := r } := by
  unfold tomar_tenedores_solicitud
  exact probar_con_running N
    { m with
      estados := escribir m.estados i Estado.HAMBRIENTO
      contadores := escribir m.contadores i
        { m.contadores i with hambriento := (m.contadores i).hambriento + 1 } } i r

/-- Outcome of the request phase by cases on the neighbours. -/
theorem solicitud_casos {N : Nat} (hN : 2 ≤ N) (m : Mesa) {i : Nat} (hi : i < N) :
    ((tomar_tenedores_solicitud N m i).contadores i).hambriento
        = (m.contadores i).hambriento + 1 ∧
      ((m.estados ((i + N - 1) % N) ≠ Estado.COMIENDO ∧
          m.estados ((i + 1) % N) ≠ Estado.COMIENDO) →
        (tomar_tenedores_solicitud N m i).estados i = Estado.COMIENDO ∧
        ((tomar_tenedores_solicitud N m i).contadores i).comiendo
          = (m.contadores i).comiendo + 1) ∧
      (¬ (m.estados ((i + N - 1) % N) ≠ Estado.COMIENDO ∧
          m.estados ((i + 1) % N) ≠ Estado.COMIENDO) →
        (tomar_tenedores_solicitud N m i).estados i = Estado.HAMBRIENTO ∧
        ((tomar_tenedores_solicitud N m i).contadores i).comiendo
          = (m.contadores i).comiendo) := by
  have hl := izq_ne hN hi
  have hr := der_ne hN hi
  have hpc : PuedeComer N
      { m with
        estados := escribir m.estados i Estado.HAMBRIENTO
        contadores := escribir m.contadores i
          { m.contadores i with hambriento := (m.contadores i).hambriento + 1 } } i ↔
      (m.estados ((i + N - 1) % N) ≠ Estado.COMIENDO ∧
        m.estados ((i + 1) % N) ≠ Estado.COMIENDO) := by
    unfold PuedeComer
    simp [escribir, hl, hr]
  refine ⟨?_, ?_, ?_⟩
  · unfold tomar_tenedores_solicitud
    rw [probar_hambriento]
    simp [escribir]
  · intro h
    unfold tomar_tenedores_solicitud
    rw [probar_si (hpc.mpr h)]
    simp [escribir]
  · intro h
    unfold tomar_tenedores_solicitud
    rw [probar_no (fun h2 => h (hpc.mp h2))]
    simp [escribir]


/-! ## The state of a philosopher under the steps of the others -/

theorem probar_pensando_estable (N : Nat) (m : Mesa) (k : Nat) {x : Nat}
    (h : m.estados x = Estado.PENSANDO) : (probar N m k).estados x = Estado.PENSANDO := by
  by_cases hp : PuedeComer N m k
  · by_cases hx : x = k
    · subst hx
      rw [hp.1] at h
      exact Estado.noConfusion h
    · rw [probar_estados_otro N m hx]; exact h
  · rw [probar_no hp]; exact h

theorem liberar_estado_propio (N : Nat) (m : Mesa) (i : Nat) :
    (liberar_tenedores N m i).estados i = Estado.PENSANDO := by
  unfold liberar_tenedores
  apply probar_pensando_estable
  apply probar_pensando_estable
  simp [escribir]

theorem liberar_estados_otro (N : Nat) (m : Mesa) {i x : Nat} (hx : x ≠ i)
    (h : m.estados x = Estado.PENSANDO ∨ m.estados x = Estado.COMIENDO) :
    (liberar_tenedores N m i).estados x = m.estados x := by
  unfold liberar_tenedores
  rcases h with h | h
  · rw [h]
    apply probar_pensando_estable
    apply probar_pensando_estable
    simpa [escribir, hx] using h
  · rw [h]
    apply probar_mono
    apply probar_mono
    simpa [escribir, hx] using h

theorem paso_ajeno_estable (N : Nat) (m : Mesa) (p : Paso) {id : Nat}
    (hp : p.ajeno id = true)
    (h : m.estados id = Estado.PENSANDO ∨ m.estados id = Estado.COMIENDO) :
    (paso N m p).estados id = m.estados id := by
  cases p with
  | tomar j =>
    have hj : id ≠ j := by
      simp only [Paso.ajeno, decide_eq_true_eq] at hp
      exact fun h2 => hp h2.symm
    exact solicitud_estados_otro N m hj
  | liberar j =>
    have hj : id ≠ j := by
      simp only [Paso.ajeno, decide_eq_true_eq] at hp
      exact fun h2 => hp h2.symm
    exact liberar_estados_otro N m hj h
  | bandera b => rfl

theorem ejecutar_ajeno_estable (N : Nat) (id : Nat) (ps : List Paso) :
    ∀ m : Mesa, ps.all (Paso.ajeno id) = true →
      (m.estados id = Estado.PENSANDO ∨ m.estados id = Estado.COMIENDO) →
      (ejecutar N m ps).estados id = m.estados id := by
  induction ps with
  | nil => intro m _ _; rfl
  | cons p ps ih =>
    intro m hps h
    simp only [List.all_cons, Bool.and_eq_true] at hps
    have h1 := paso_ajeno_estable N m p hps.1 h
    rw [ejecutar, ih (paso N m p) hps.2 (by rw [h1]; exact h), h1]

theorem ajeno_no_enciende {id : Nat} {ps : List Paso} (h : ps.all (Paso.ajeno id) = true) :
    ∀ p ∈ ps, p ≠ Paso.bandera true := by
  intro p hp hpe
  have h2 := List.all_eq_true.mp h p hp
  rw [hpe] at h2
  simp [Paso.ajeno] at h2

/-- On a table whose flag is false, the loop of `filosofo` exits without any operation. -/
theorem filosofo_parado (N id : Nat) (m : Mesa) (ens : List Entorno)
    (h : esta_ejecutando m = false) :
    filosofo N id m ens = (some m, []) ∧ filosofo_registro N id m ens = [] := by
  cases ens <;> simp [filosofo, filosofo_registro, h]


/-! ## Calls with the index checked against the arrays -/

theorem leer_estado_dentro {N : Nat} (m : Mesa) {k : Nat} (hk : k < N) :
    leer_estado N m (k : Int) = some (m.estados k) := by
  have h : 0 ≤ (k : Int) ∧ (k : Int) < (N : Int) := ⟨by omega, by omega⟩
  simp [leer_estado, h]

theorem guardar_estado_dentro {N : Nat} (m : Mesa) {k : Nat} (hk : k < N) (v : Estado) :
    guardar_estado N m (k : Int) v = some { m with estados := escribir m.estados k v } := by
  have h : 0 ≤ (k : Int) ∧ (k : Int) < (N : Int) := ⟨by omega, by omega⟩
  simp [guardar_estado, h]

theorem guardar_contadores_dentro {N : Nat} (m : Mesa) {k : Nat} (hk : k < N)
    (f : Contadores → Contadores) :
    guardar_contadores N m (k : Int) f
      = some { m with contadores := escribir m.contadores k (f (m.contadores k)) } := by
  have h : 0 ≤ (k : Int) ∧ (k : Int) < (N : Int) := ⟨by omega, by omega⟩
  simp [guardar_contadores, h]

theorem tmod_izq {N k : Nat} (hk : k < N) :
    Int.tmod ((k : Int) + (N : Int) - 1) (N : Int) = (((k + N - 1) % N : Nat) : Int) := by
  have h : (k : Int) + (N : Int) - 1 = ((k + N - 1 : Nat) : Int) := by omega
  rw [h, Int.ofNat_tmod]

theorem tmod_der (N k : Nat) :
    Int.tmod ((k : Int) + 1) (N : Int) = (((k + 1) % N : Nat) : Int) := by
  have h : (k : Int) + 1 = ((k + 1 : Nat) : Int) := by omega
  rw [h, Int.ofNat_tmod]

/-- Inside the array the checked `probar` is `probar`. -/
theorem probar_comprobado_dentro {N : Nat} (m : Mesa) {k : Nat} (hk : k < N) :
    probar_comprobado N m (k : Int) = some (probar N m k) := by
  unfold probar_comprobado
  rw [leer_estado_dentro m hk, tmod_izq hk, tmod_der N k, leer_estado_dentro m (izq_lt hk),
    leer_estado_dentro m (der_lt hk), guardar_estado_dentro m hk]
  simp only [Option.some_bind]
  by_cases h1 : m.estados k = Estado.HAMBRIENTO
  · by_cases h2 : m.estados ((k + N - 1) % N) ≠ Estado.COMIENDO
    · by_cases h3 : m.estados ((k + 1) % N) ≠ Estado.COMIENDO
      · rw [if_pos h1, if_pos h2, if_pos h3, guardar_contadores_dentro _ hk,
          probar_si ⟨h1, h2, h3⟩]
      · rw [if_pos h1, if_pos h2, if_neg h3, probar_no (fun h => h3 h.2.2)]
    · rw [if_pos h1, if_neg h2, probar_no (fun h => h2 h.2.1)]
  · rw [if_neg h1, probar_no (fun h => h1 h.1)]


/-! ## Safety of the protocol -/

/-- C1. Mutual exclusion (invariant I1): in every table reachable from the freshly constructed
one by atomic acquire and release steps on slots of the ring, no two ring-adjacent philosophers
`i` and `(i + 1) % N` are both `COMIENDO`; this holds for every ring size `N ≥ 3`, in particular
for the program's `NUM_FILOSOFOS = 5`. -/
theorem exclusion_mutua_alcanzable (N : Nat) (hN : 3 ≤ N) (m : Mesa) (hm : Alcanzable N m)
    (i : Nat) (hi : i < N) :
    ¬ (m.estados i = Estado.COMIENDO ∧ m.estados ((i + 1) % N) = Estado.COMIENDO) :=
  (alcanzable_invariante (by omega) hm).1 i hi

/-- Instance of C1 on the program's ring of five, after philosophers 0, 2 and 1 asked to eat. -/
theorem exclusion_mutua_alcanzable_witness :
    ¬ ((ejecutar NUM_FILOSOFOS (Mesa.inicial true)
          [Paso.tomar 0, Paso.tomar 2, Paso.tomar 1]).estados 0 = Estado.COMIENDO ∧
        (ejecutar NUM_FILOSOFOS (Mesa.inicial true)
          [Paso.tomar 0, Paso.tomar 2, Paso.tomar 1]).estados ((0 + 1) % NUM_FILOSOFOS)
            = Estado.COMIENDO) :=
  exclusion_mutua_alcanzable NUM_FILOSOFOS (by decide) _
    ⟨true, [Paso.tomar 0, Paso.tomar 2, Paso.tomar 1], by decide, rfl⟩ 0 (by decide)

/-- C2. No missed promotion (invariant I2): in every reachable table, after a step has
completed, no philosopher of the ring is `HAMBRIENTO` while both neighbours are not `COMIENDO`;
equivalently a `HAMBRIENTO` philosopher has a neighbour that is `COMIENDO`. -/
theorem sin_promocion_perdida_alcanzable (N : Nat) (hN : 3 ≤ N) (m : Mesa) (hm : Alcanzable N m)
    (k : Nat) (hk : k < N) :
    ¬ (m.estados k = Estado.HAMBRIENTO ∧
        m.estados ((k + N - 1) % N) ≠ Estado.COMIENDO ∧
        m.estados ((k + 1) % N) ≠ Estado.COMIENDO) ∧
      (m.estados k = Estado.HAMBRIENTO →
        m.estados ((k + N - 1) % N) = Estado.COMIENDO ∨
        m.estados ((k + 1) % N) = Estado.COMIENDO) := by
  have h := (alcanzable_invariante (by omega) hm).2 k hk
  refine ⟨?_, h⟩
  rintro ⟨hh, hl, hr⟩
  rcases h hh with h1 | h1
  · exact hl h1
  · exact hr h1

/-- Instance of C2: philosopher 1 of five is `HAMBRIENTO` after 0, 2 and 1 asked to eat, and
its neighbour 0 is `COMIENDO`. -/
theorem sin_promocion_perdida_alcanzable_witness :
    (ejecutar NUM_FILOSOFOS (Mesa.inicial true)
        [Paso.tomar 0, Paso.tomar 2, Paso.tomar 1]).estados 1 = Estado.HAMBRIENTO ∧
      ((ejecutar NUM_FILOSOFOS (Mesa.inicial true)
          [Paso.tomar 0, Paso.tomar 2, Paso.tomar 1]).estados
            ((1 + NUM_FILOSOFOS - 1) % NUM_FILOSOFOS) = Estado.COMIENDO ∨
        (ejecutar NUM_FILOSOFOS (Mesa.inicial true)
          [Paso.tomar 0, Paso.tomar 2, Paso.tomar 1]).estados
            ((1 + 1) % NUM_FILOSOFOS) = Estado.COMIENDO) :=
  ⟨by decide,
    (sin_promocion_perdida_alcanzable NUM_FILOSOFOS (by decide) _
      ⟨true, [Paso.tomar 0, Paso.tomar 2, Paso.tomar 1], by decide, rfl⟩ 1 (by decide)).2
      (by decide)⟩

/-- C3. No deadlock: in every reachable table, if some philosopher of the ring is `HAMBRIENTO`
then some philosopher of the ring is `COMIENDO`; in particular a table in which all `N`
philosophers are `HAMBRIENTO` is not reachable. -/
theorem sin_interbloqueo (N : Nat) (hN : 3 ≤ N) (m : Mesa) (hm : Alcanzable N m) :
    ((∃ k, k < N ∧ m.estados k = Estado.HAMBRIENTO) →
        ∃ j, j < N ∧ m.estados j = Estado.COMIENDO) ∧
      ¬ (∀ k, k < N → m.estados k = Estado.HAMBRIENTO) := by
  have h2 := (alcanzable_invariante (by omega) hm).2
  have paso1 : (∃ k, k < N ∧ m.estados k = Estado.HAMBRIENTO) →
      ∃ j, j < N ∧ m.estados j = Estado.COMIENDO := by
    rintro ⟨k, hk, hh⟩
    rcases h2 k hk hh with h3 | h3
    · exact ⟨_, izq_lt hk, h3⟩
    · exact ⟨_, der_lt hk, h3⟩
  refine ⟨paso1, ?_⟩
  intro htodos
  obtain ⟨j, hj, hc⟩ := paso1 ⟨0, by omega, htodos 0 (by omega)⟩
  rw [htodos j hj] at hc
  exact Estado.noConfusion hc

/-- Instance of C3: with philosopher 1 of five waiting after 0, 2 and 1 asked to eat, some
philosopher is eating. -/
theorem sin_interbloqueo_witness :
    (ejecutar NUM_FILOSOFOS (Mesa.inicial true)
        [Paso.tomar 0, Paso.tomar 2, Paso.tomar 1]).estados 1 = Estado.HAMBRIENTO ∧
      ∃ j, j < NUM_FILOSOFOS ∧
        (ejecutar NUM_FILOSOFOS (Mesa.inicial true)
          [Paso.tomar 0, Paso.tomar 2, Paso.tomar 1]).estados j = Estado.COMIENDO :=
  ⟨by decide,
    (sin_interbloqueo NUM_FILOSOFOS (by decide) _
      ⟨true, [Paso.tomar 0, Paso.tomar 2, Paso.tomar 1], by decide, rfl⟩).1
      ⟨1, by decide, by decide⟩⟩

/-! ## Contracts of the operations -/

/-- C4. Postcondition of acquire: a call `tomar_tenedores(i)` issued on a reachable table returns
only on a table where `estados[i] == COMIENDO` or the flag `running` is false; hence when it
returns while the simulation is still running, `estados[i] == COMIENDO` and neither neighbour
`(i - 1 + N) % N`, `(i + 1) % N` is `COMIENDO`.  The other threads may take any atomic steps on
slots of the ring, and the owner may store to the flag, while the caller waits. -/
theorem postcondicion_tomar (N : Nat) (hN : 3 ≤ N) (m : Mesa) (hm : Alcanzable N m)
    (i : Nat) (hi : i < N) (entorno : List (List Paso))
    (he : ∀ e ∈ entorno, ∀ p ∈ e, p.enRango N = true) (mf : Mesa)
    (hret : tomar_tenedores N m i entorno = some mf) :
    (mf.estados i = Estado.COMIENDO ∨ mf.running = false) ∧
      (mf.running = true →
        mf.estados i = Estado.COMIENDO ∧
        mf.estados ((i + N - 1) % N) ≠ Estado.COMIENDO ∧
        mf.estados ((i + 1) % N) ≠ Estado.COMIENDO) := by
  have h2 : 2 ≤ N := by omega
  obtain ⟨hg, ps, hps, hej⟩ := espera_some entorno _ mf hret
  have hval : ∀ p ∈ ps, p.enRango N = true := by
    intro p hp
    obtain ⟨e, hee, hpe⟩ := hps p hp
    exact he e hee p hpe
  have hinv : Invariante N mf := by
    rw [← hej]
    exact ejecutar_invariante h2 ps _ hval
      (solicitud_invariante h2 hi (alcanzable_invariante h2 hm))
  have hfin := (guarda_false_iff mf i).mp hg
  refine ⟨hfin, fun hrun => ?_⟩
  have hc : mf.estados i = Estado.COMIENDO := by
    rcases hfin with h3 | h3
    · exact h3
    · rw [hrun] at h3; exact absurd h3 (by decide)
  exact ⟨hc, exclusion_izq hinv.1 hi hc, exclusion_der hinv.1 hi hc⟩

/-- Instance of C4: philosopher 1 of five asks while 0 eats, sleeps through a spurious wake-up
and returns after 0 has released. -/
theorem postcondicion_tomar_witness :
    ((ejecutar 5 (tomar_tenedores_solicitud 5 (ejecutar 5 (Mesa.inicial true) [Paso.tomar 0]) 1)
          [Paso.liberar 0]).estados 1 = Estado.COMIENDO ∨
        (ejecutar 5 (tomar_tenedores_solicitud 5 (ejecutar 5 (Mesa.inicial true) [Paso.tomar 0]) 1)
          [Paso.liberar 0]).running = false) ∧
      ((ejecutar 5 (tomar_tenedores_solicitud 5 (ejecutar 5 (Mesa.inicial true) [Paso.tomar 0]) 1)
          [Paso.liberar 0]).running = true →
        (ejecutar 5 (tomar_tenedores_solicitud 5 (ejecutar 5 (Mesa.inicial true) [Paso.tomar 0]) 1)
          [Paso.liberar 0]).estados 1 = Estado.COMIENDO ∧
        (ejecutar 5 (tomar_tenedores_solicitud 5 (ejecutar 5 (Mesa.inicial true) [Paso.tomar 0]) 1)
          [Paso.liberar 0]).estados ((1 + 5 - 1) % 5) ≠ Estado.COMIENDO ∧
        (ejecutar 5 (tomar_tenedores_solicitud 5 (ejecutar 5 (Mesa.inicial true) [Paso.tomar 0]) 1)
          [Paso.liberar 0]).estados ((1 + 1) % 5) ≠ Estado.COMIENDO) :=
  postcondicion_tomar 5 (by decide) (ejecutar 5 (Mesa.inicial true) [Paso.tomar 0])
    ⟨true, [Paso.tomar 0], by decide, rfl⟩ 1 (by decide) [[], [Paso.liberar 0]] (by decide)
    _ rfl

/-- C5. The try-promote rule: for every table and every `k` in `[0, N)`, `probar(k)` turns
`estados[k]` into `COMIENDO` if and only if beforehand `estados[k] == HAMBRIENTO` and neither
`estados[(k - 1 + N) % N]` nor `estados[(k + 1) % N]` is `COMIENDO`; when it promotes, the new
table is the old one with `estados[k] = COMIENDO` and `contadores[k].comiendo` larger by one;
when it does not promote, the table is unchanged. -/
theorem probar_regla (N : Nat) (m : Mesa) (k : Nat) (_hk : k < N) :
    ((m.estados k ≠ Estado.COMIENDO ∧ (probar N m k).estados k = Estado.COMIENDO) ↔
        (m.estados k = Estado.HAMBRIENTO ∧
          m.estados ((k + N - 1) % N) ≠ Estado.COMIENDO ∧
          m.estados ((k + 1) % N) ≠ Estado.COMIENDO)) ∧
      ((m.estados k = Estado.HAMBRIENTO ∧
          m.estados ((k + N - 1) % N) ≠ Estado.COMIENDO ∧
          m.estados ((k + 1) % N) ≠ Estado.COMIENDO) →
        probar N m k =
          { estados := escribir m.estados k Estado.COMIENDO
            running := m.running
            contadores := escribir m.contadores k
              { pensando := (m.contadores k).pensando
                hambriento := (m.contadores k).hambriento
                comiendo := (m.contadores k).comiendo + 1 } }) ∧
      (¬ (m.estados k = Estado.HAMBRIENTO ∧
          m.estados ((k + N - 1) % N) ≠ Estado.COMIENDO ∧
          m.estados ((k + 1) % N) ≠ Estado.COMIENDO) →
        probar N m k = m) := by
  refine ⟨⟨?_, ?_⟩, ?_, ?_⟩
  · rintro ⟨hantes, hdespues⟩
    by_contra hno
    rw [probar_no hno] at hdespues
    exact hantes hdespues
  · intro hp
    refine ⟨?_, ?_⟩
    · rw [hp.1]; decide
    · rw [probar_si hp]; simp [escribir]
  · intro hp
    exact probar_si hp
  · intro hno
    exact probar_no hno

/-- Instance of C5: on the table of five where only philosopher 1 has asked, `probar(1)`
promotes it. -/
theorem probar_regla_witness :
    (escribir (Mesa.inicial true).estados 1 Estado.HAMBRIENTO) 1 ≠ Estado.COMIENDO ∧
      (probar 5
        { estados := escribir (Mesa.inicial true).estados 1 Estado.HAMBRIENTO
          running := true
          contadores := (Mesa.inicial true).contadores } 1).estados 1 = Estado.COMIENDO :=
  (probar_regla 5
    { estados := escribir (Mesa.inicial true).estados 1 Estado.HAMBRIENTO
      running := true
      contadores := (Mesa.inicial true).contadores } 1 (by decide)).1.mpr (by decide)

/-- C6. Effect of the request phase of `tomar_tenedores(i)`, for every table and every `i` in
`[0, N)`: `contadores[i].hambriento` grows by exactly one; the state of every other philosopher
and every thinking counter are unchanged; `estados[i]` ends as `COMIENDO`, with
`contadores[i].comiendo` one larger, exactly when neither neighbour of `i` was `COMIENDO`
beforehand, and as `HAMBRIENTO`, with the eating counter unchanged, otherwise. -/
theorem tomar_tenedores_solicitud_efecto (N : Nat) (hN : 2 ≤ N) (m : Mesa) (i : Nat)
    (hi : i < N) :
    ((tomar_tenedores_solicitud N m i).contadores i).hambriento
        = (m.contadores i).hambriento + 1 ∧
      (∀ j, j ≠ i → (tomar_tenedores_solicitud N m i).estados j = m.estados j) ∧
      (∀ j, ((tomar_tenedores_solicitud N m i).contadores j).pensando
        = (m.contadores j).pensando) ∧
      ((m.estados ((i + N - 1) % N) ≠ Estado.COMIENDO ∧
          m.estados ((i + 1) % N) ≠ Estado.COMIENDO) →
        (tomar_tenedores_solicitud N m i).estados i = Estado.COMIENDO ∧
        ((tomar_tenedores_solicitud N m i).contadores i).comiendo
          = (m.contadores i).comiendo + 1) ∧
      (¬ (m.estados ((i + N - 1) % N) ≠ Estado.COMIENDO ∧
          m.estados ((i + 1) % N) ≠ Estado.COMIENDO) →
        (tomar_tenedores_solicitud N m i).estados i = Estado.HAMBRIENTO ∧
        ((tomar_tenedores_solicitud N m i).contadores i).comiendo
          = (m.contadores i).comiendo) := by
  have hl := izq_ne hN hi
  have hr := der_ne hN hi
  unfold tomar_tenedores_solicitud
  by_cases hp : m.estados ((i + N - 1) % N) ≠ Estado.COMIENDO ∧
      m.estados ((i + 1) % N) ≠ Estado.COMIENDO
  · have hpc : PuedeComer N
        { m with
          estados := escribir m.estados i Estado.HAMBRIENTO
          contadores := escribir m.contadores i
            { m.contadores i with hambriento := (m.contadores i).hambriento + 1 } } i := by
      refine ⟨by simp [escribir], ?_, ?_⟩
      · simp only [escribir, if_neg hl]; exact hp.1
      · simp only [escribir, if_neg hr]; exact hp.2
    rw [probar_si hpc]
    refine ⟨by simp [escribir], ?_, ?_, ?_, ?_⟩
    · intro j hj; simp [escribir, hj]
    · intro j
      by_cases hj : j = i
      · subst hj; simp [escribir]
      · simp [escribir, hj]
    · intro _; simp [escribir]
    · intro hno; exact absurd hp hno
  · have hpc : ¬ PuedeComer N
        { m with
          estados := escribir m.estados i Estado.HAMBRIENTO
          contadores := escribir m.contadores i
            { m.contadores i with hambriento := (m.contadores i).hambriento + 1 } } i := by
      rintro ⟨_, h2, h3⟩
      simp only [escribir, if_neg hl] at h2
      simp only [escribir, if_neg hr] at h3
      exact hp ⟨h2, h3⟩
    rw [probar_no hpc]
    refine ⟨by simp [escribir], ?_, ?_, ?_, ?_⟩
    · intro j hj; simp [escribir, hj]
    · intro j
      by_cases hj : j = i
      · subst hj; simp [escribir]
      · simp [escribir, hj]
    · intro hsi; exact absurd hsi hp
    · intro _; simp [escribir]

/-- Instance of C6: philosopher 1 of five asks while philosopher 0 eats, and stays
`HAMBRIENTO` with its eating counter unchanged. -/
theorem tomar_tenedores_solicitud_efecto_witness :
    (tomar_tenedores_solicitud 5 (ejecutar 5 (Mesa.inicial true) [Paso.tomar 0]) 1).estados 1
        = Estado.HAMBRIENTO ∧
      ((tomar_tenedores_solicitud 5 (ejecutar 5 (Mesa.inicial true) [Paso.tomar 0]) 1).contadores
          1).comiendo
        = ((ejecutar 5 (Mesa.inicial true) [Paso.tomar 0]).contadores 1).comiendo :=
  (tomar_tenedores_solicitud_efecto 5 (by decide)
    (ejecutar 5 (Mesa.inicial true) [Paso.tomar 0]) 1 (by decide)).2.2.2.2 (by decide)

/-- C7. Effect of `liberar_tenedores(i)`, for every table and every `i` in `[0, N)`: it is the
store `estados[i] = PENSANDO`, the increment of `contadores[i].pensando`, then `probar` on
`(i - 1 + N) % N`, then `probar` on `(i + 1) % N`.  Afterwards `estados[i] == PENSANDO`, no hungry
counter has changed, philosophers other than `i` and its two neighbours are unchanged, and each
neighbour is promoted to `COMIENDO` exactly when it was `HAMBRIENTO` and its own other neighbour
is not `COMIENDO` in the table on which it is examined (`m1` for the left one, `m2` for the
right one). -/
theorem liberar_tenedores_efecto (N : Nat) (hN : 3 ≤ N) (m : Mesa) (i : Nat) (hi : i < N)
    (m1 m2 : Mesa)
    (h1 : m1 =
      { estados := escribir m.estados i Estado.PENSANDO
        running := m.running
        contadores := escribir m.contadores i
          { pensando := (m.contadores i).pensando + 1
            hambriento := (m.contadores i).hambriento
            comiendo := (m.contadores i).comiendo } })
    (h2 : m2 = probar N m1 ((i + N - 1) % N)) :
    liberar_tenedores N m i = probar N m2 ((i + 1) % N) ∧
      (liberar_tenedores N m i).estados i = Estado.PENSANDO ∧
      (∀ j, ((liberar_tenedores N m i).contadores j).hambriento = (m.contadores j).hambriento) ∧
      (∀ j, j ≠ i → j ≠ (i + N - 1) % N → j ≠ (i + 1) % N →
        (liberar_tenedores N m i).estados j = m.estados j ∧
        (liberar_tenedores N m i).contadores j = m.contadores j) ∧
      ((m.estados ((i + N - 1) % N) ≠ Estado.COMIENDO ∧
          (liberar_tenedores N m i).estados ((i + N - 1) % N) = Estado.COMIENDO) ↔
        (m.estados ((i + N - 1) % N) = Estado.HAMBRIENTO ∧
          m1.estados (((i + N - 1) % N + N - 1) % N) ≠ Estado.COMIENDO)) ∧
      ((m.estados ((i + 1) % N) ≠ Estado.COMIENDO ∧
          (liberar_tenedores N m i).estados ((i + 1) % N) = Estado.COMIENDO) ↔
        (m.estados ((i + 1) % N) = Estado.HAMBRIENTO ∧
          m2.estados (((i + 1) % N + 1) % N) ≠ Estado.COMIENDO)) := by
  have hN2 : 2 ≤ N := by omega
  have hLi : (i + N - 1) % N ≠ i := izq_ne hN2 hi
  have hRi : (i + 1) % N ≠ i := der_ne hN2 hi
  have hLR : (i + N - 1) % N ≠ (i + 1) % N := izq_ne_der hN hi
  have hdef : liberar_tenedores N m i = probar N m2 ((i + 1) % N) := by
    rw [h2, h1]; rfl
  have e1L : m1.estados ((i + N - 1) % N) = m.estados ((i + N - 1) % N) := by
    rw [h1]; simp [escribir, hLi]
  have e1R : m1.estados ((i + 1) % N) = m.estados ((i + 1) % N) := by
    rw [h1]; simp [escribir, hRi]
  have e1i : m1.estados i = Estado.PENSANDO := by
    rw [h1]; simp [escribir]
  have e2i : m2.estados i = Estado.PENSANDO := by
    rw [h2, probar_estados_otro N m1 (Ne.symm hLi)]; exact e1i
  have e2R : m2.estados ((i + 1) % N) = m.estados ((i + 1) % N) := by
    rw [h2, probar_estados_otro N m1 (Ne.symm hLR)]; exact e1R
  refine ⟨hdef, ?_, ?_, ?_, ?_, ?_⟩
  · rw [hdef, probar_estados_otro N m2 (Ne.symm hRi)]; exact e2i
  · intro j
    rw [hdef, probar_hambriento, h2, probar_hambriento, h1]
    by_cases hj : j = i
    · subst hj; simp [escribir]
    · simp [escribir, hj]
  · intro j hji hjl hjr
    rw [hdef, probar_estados_otro N m2 hjr, probar_contadores_otro N m2 hjr, h2,
      probar_estados_otro N m1 hjl, probar_contadores_otro N m1 hjl, h1]
    simp [escribir, hji]
  · rw [hdef, probar_estados_otro N m2 hLR, h2, ← e1L, probar_promueve_iff]
    unfold PuedeComer
    rw [der_izq hi, e1i]
    simp
  · rw [hdef, ← e2R, probar_promueve_iff]
    unfold PuedeComer
    rw [izq_der hi, e2i]
    simp

/-- Instance of C7: in the ring of five with 0 eating and 1 waiting, `liberar_tenedores(0)`
promotes the right neighbour 1, whose own right neighbour 2 is not eating. -/
theorem liberar_tenedores_efecto_witness :
    (ejecutar 5 (Mesa.inicial true) [Paso.tomar 0, Paso.tomar 1]).estados ((0 + 1) % 5)
        ≠ Estado.COMIENDO ∧
      (liberar_tenedores 5 (ejecutar 5 (Mesa.inicial true) [Paso.tomar 0, Paso.tomar 1])
        0).estados ((0 + 1) % 5) = Estado.COMIENDO :=
  (liberar_tenedores_efecto 5 (by decide)
    (ejecutar 5 (Mesa.inicial true) [Paso.tomar 0, Paso.tomar 1]) 0 (by decide) _ _ rfl
    rfl).2.2.2.2.2.mpr (by decide)

/-- C8. Counter conservation: along every interleaving of atomic steps in which each
philosopher asks only while `PENSANDO` and releases only while `COMIENDO` (it alternates acquire
and release, and releases only after being promoted), for every philosopher `i` of the ring the
thinking counter starts at 1 and, with `M` the number of acquire/release cycles `i` has
completed, `pensando = M + 1` throughout and, once the `M`-th cycle is complete (`i` is
`PENSANDO` again), `hambriento = M` and `comiendo = M`; in the middle of the next cycle
`hambriento = M + 1`, and `comiendo = M` while waiting, `M + 1` while eating. -/
theorem conservacion_contadores (N : Nat) (r : Bool) (ps : List Paso)
    (hd : disciplinada N (Mesa.inicial r) ps = true) (i : Nat) (_hi : i < N) :
    ((Mesa.inicial r).contadores i).pensando = 1 ∧
      ((ejecutar N (Mesa.inicial r) ps).contadores i).pensando = (ciclos i ps : Int) + 1 ∧
      ((ejecutar N (Mesa.inicial r) ps).estados i = Estado.PENSANDO →
        ((ejecutar N (Mesa.inicial r) ps).contadores i).hambriento = (ciclos i ps : Int) ∧
        ((ejecutar N (Mesa.inicial r) ps).contadores i).comiendo = (ciclos i ps : Int)) ∧
      ((ejecutar N (Mesa.inicial r) ps).estados i = Estado.HAMBRIENTO →
        ((ejecutar N (Mesa.inicial r) ps).contadores i).hambriento = (ciclos i ps : Int) + 1 ∧
        ((ejecutar N (Mesa.inicial r) ps).contadores i).comiendo = (ciclos i ps : Int)) ∧
      ((ejecutar N (Mesa.inicial r) ps).estados i = Estado.COMIENDO →
        ((ejecutar N (Mesa.inicial r) ps).contadores i).hambriento = (ciclos i ps : Int) + 1 ∧
        ((ejecutar N (Mesa.inicial r) ps).contadores i).comiendo = (ciclos i ps : Int) + 1) := by
  have h := ejecutar_cuenta N i ps (Mesa.inicial r) 0 hd (inicial_cuenta r i)
  rw [Nat.zero_add] at h
  exact ⟨rfl, h⟩

/-- Instance of C8: in the ring of five, philosophers 0 and 1 interleave; after two complete
cycles of philosopher 0 its counters are 3, 2, 2. -/
theorem conservacion_contadores_witness :
    ((ejecutar 5 (Mesa.inicial true)
        [Paso.tomar 0, Paso.tomar 1, Paso.liberar 0, Paso.tomar 0, Paso.liberar 1,
          Paso.liberar 0]).contadores 0).pensando = 3 ∧
      ((ejecutar 5 (Mesa.inicial true)
        [Paso.tomar 0, Paso.tomar 1, Paso.liberar 0, Paso.tomar 0, Paso.liberar 1,
          Paso.liberar 0]).contadores 0).hambriento = 2 ∧
      ((ejecutar 5 (Mesa.inicial true)
        [Paso.tomar 0, Paso.tomar 1, Paso.liberar 0, Paso.tomar 0, Paso.liberar 1,
          Paso.liberar 0]).contadores 0).comiendo = 2 :=
  have h := conservacion_contadores 5 true
    [Paso.tomar 0, Paso.tomar 1, Paso.liberar 0, Paso.tomar 0, Paso.liberar 1, Paso.liberar 0]
    (by decide) 0 (by decide)
  ⟨h.2.1, (h.2.2.1 (by decide)).1, (h.2.2.1 (by decide)).2⟩

/-! ## The end-to-end scenario on the ring of five -/

/-- C9 as stated fails on the code: in the table of five reached by `tomar_tenedores` of 0, 2
and 1 (0 and 2 `COMIENDO`, 1 `HAMBRIENTO`, 3 and 4 `PENSANDO`), `liberar_tenedores(0)` does not
leave `estados[1] == COMIENDO`. -/
theorem liberar_cero_no_promueve_uno :
    (ejecutar 5 (Mesa.inicial true)
        [Paso.tomar 0, Paso.tomar 2, Paso.tomar 1]).estados 0 = Estado.COMIENDO ∧
      (ejecutar 5 (Mesa.inicial true)
        [Paso.tomar 0, Paso.tomar 2, Paso.tomar 1]).estados 1 = Estado.HAMBRIENTO ∧
      (ejecutar 5 (Mesa.inicial true)
        [Paso.tomar 0, Paso.tomar 2, Paso.tomar 1]).estados 2 = Estado.COMIENDO ∧
      (ejecutar 5 (Mesa.inicial true)
        [Paso.tomar 0, Paso.tomar 2, Paso.tomar 1]).estados 3 = Estado.PENSANDO ∧
      (ejecutar 5 (Mesa.inicial true)
        [Paso.tomar 0, Paso.tomar 2, Paso.tomar 1]).estados 4 = Estado.PENSANDO ∧
      ¬ ((liberar_tenedores 5
          (ejecutar 5 (Mesa.inicial true) [Paso.tomar 0, Paso.tomar 2, Paso.tomar 1])
          0).estados 1 = Estado.COMIENDO) := by
  decide

/-- C9 amended: in the table of five reached by `tomar_tenedores` of 0, 2 and 1 (0 and 2
`COMIENDO`, 1 `HAMBRIENTO`, 3 and 4 `PENSANDO`), `liberar_tenedores(0)` leaves philosopher 1
`HAMBRIENTO`, because its other neighbour 2 is still `COMIENDO`; philosopher 1 is promoted once
2 has released as well: after `liberar_tenedores(0)` and then `liberar_tenedores(2)`,
`estados[1] == COMIENDO`. -/
theorem escenario_segunda_mitad (r : Bool) :
    (ejecutar 5 (Mesa.inicial r)
        [Paso.tomar 0, Paso.tomar 2, Paso.tomar 1]).estados 0 = Estado.COMIENDO ∧
      (ejecutar 5 (Mesa.inicial r)
        [Paso.tomar 0, Paso.tomar 2, Paso.tomar 1]).estados 1 = Estado.HAMBRIENTO ∧
      (ejecutar 5 (Mesa.inicial r)
        [Paso.tomar 0, Paso.tomar 2, Paso.tomar 1]).estados 2 = Estado.COMIENDO ∧
      (ejecutar 5 (Mesa.inicial r)
        [Paso.tomar 0, Paso.tomar 2, Paso.tomar 1]).estados 3 = Estado.PENSANDO ∧
      (ejecutar 5 (Mesa.inicial r)
        [Paso.tomar 0, Paso.tomar 2, Paso.tomar 1]).estados 4 = Estado.PENSANDO ∧
      (liberar_tenedores 5
        (ejecutar 5 (Mesa.inicial r) [Paso.tomar 0, Paso.tomar 2, Paso.tomar 1])
        0).estados 1 = Estado.HAMBRIENTO ∧
      (liberar_tenedores 5
        (ejecutar 5 (Mesa.inicial r) [Paso.tomar 0, Paso.tomar 2, Paso.tomar 1])
        0).estados 2 = Estado.COMIENDO ∧
      (liberar_tenedores 5
        (liberar_tenedores 5
          (ejecutar 5 (Mesa.inicial r) [Paso.tomar 0, Paso.tomar 2, Paso.tomar 1]) 0)
        2).estados 1 = Estado.COMIENDO := by
  cases r <;> decide

/-- C10. First half of the scenario: from the freshly constructed table of five, for any two
distinct philosophers `a` and `b` that are not ring-adjacent, `tomar_tenedores(a)` followed by
`tomar_tenedores(b)` returns at once in both calls (the wait loop is not entered, whatever the
other threads would do) and leaves `a` and `b` `COMIENDO`; a following request by the
philosopher `c` adjacent to both leaves `c` `HAMBRIENTO`, never promoted (its eating counter is
still 0), with `a` and `b` still `COMIENDO`, and `c` has to wait as long as the simulation runs. -/
theorem escenario_primera_mitad (r : Bool) (a b c : Nat) (ha : a < 5) (hb : b < 5) (hc : c < 5)
    (hab : a ≠ b) (hnoady : b ≠ (a + 1) % 5 ∧ a ≠ (b + 1) % 5)
    (hca : c = (a + 1) % 5 ∨ a = (c + 1) % 5) (hcb : c = (b + 1) % 5 ∨ b = (c + 1) % 5) :
    (∀ entorno, tomar_tenedores 5 (Mesa.inicial r) a entorno
        = some (tomar_tenedores_solicitud 5 (Mesa.inicial r) a)) ∧
      (∀ entorno, tomar_tenedores 5 (tomar_tenedores_solicitud 5 (Mesa.inicial r) a) b entorno
        = some (tomar_tenedores_solicitud 5 (tomar_tenedores_solicitud 5 (Mesa.inicial r) a) b)) ∧
      (tomar_tenedores_solicitud 5 (tomar_tenedores_solicitud 5 (Mesa.inicial r) a) b).estados a
        = Estado.COMIENDO ∧
      (tomar_tenedores_solicitud 5 (tomar_tenedores_solicitud 5 (Mesa.inicial r) a) b).estados b
        = Estado.COMIENDO ∧
      (tomar_tenedores_solicitud 5
        (tomar_tenedores_solicitud 5 (tomar_tenedores_solicitud 5 (Mesa.inicial r) a) b)
        c).estados c = Estado.HAMBRIENTO ∧
      ((tomar_tenedores_solicitud 5
        (tomar_tenedores_solicitud 5 (tomar_tenedores_solicitud 5 (Mesa.inicial r) a) b)
        c).contadores c).comiendo = 0 ∧
      (tomar_tenedores_solicitud 5
        (tomar_tenedores_solicitud 5 (tomar_tenedores_solicitud 5 (Mesa.inicial r) a) b)
        c).estados a = Estado.COMIENDO ∧
      (tomar_tenedores_solicitud 5
        (tomar_tenedores_solicitud 5 (tomar_tenedores_solicitud 5 (Mesa.inicial r) a) b)
        c).estados b = Estado.COMIENDO ∧
      tomar_tenedores_guarda
        (tomar_tenedores_solicitud 5
          (tomar_tenedores_solicitud 5 (tomar_tenedores_solicitud 5 (Mesa.inicial r) a) b) c)
        c = r := by
  refine ⟨fun entorno => espera_inmediata 5 a _ entorno ?_,
    fun entorno => espera_inmediata 5 b _ entorno ?_, ?_⟩ <;>
  · interval_cases a <;> interval_cases b <;>
      first
      | omega
      | (interval_cases c <;>
          first
          | omega
          | (cases r <;> decide))

/-- Instance of C10 with `a = 0`, `b = 2` and `c = 1`. -/
theorem escenario_primera_mitad_witness :
    (tomar_tenedores_solicitud 5 (tomar_tenedores_solicitud 5 (Mesa.inicial true) 0) 2).estados 0
        = Estado.COMIENDO ∧
      (tomar_tenedores_solicitud 5 (tomar_tenedores_solicitud 5 (Mesa.inicial true) 0) 2).estados 2
        = Estado.COMIENDO ∧
      (tomar_tenedores_solicitud 5
        (tomar_tenedores_solicitud 5 (tomar_tenedores_solicitud 5 (Mesa.inicial true) 0) 2)
        1).estados 1 = Estado.HAMBRIENTO :=
  have h := escenario_primera_mitad true 0 2 1 (by decide) (by decide) (by decide) (by decide)
    (by decide) (by decide) (by decide)
  ⟨h.2.2.1, h.2.2.2.1, h.2.2.2.2.1⟩

/-! ## Round trip, starvation and the observers -/

/-- C11. Round trip: for every table (in particular every reachable one) in which philosopher
`i` of the ring is `COMIENDO`, if `liberar_tenedores(i)` followed by the request phase of
`tomar_tenedores(i)` yields the same states of all philosophers as before, then afterwards the
counters of every other philosopher are identical and the `pensando`, `hambriento` and
`comiendo` counters of `i` are each larger by exactly 1. -/
theorem ida_y_vuelta (N : Nat) (hN : 3 ≤ N) (m : Mesa) (i : Nat) (hi : i < N)
    (hc : m.estados i = Estado.COMIENDO)
    (higual : ∀ j, j < N →
      (tomar_tenedores_solicitud N (liberar_tenedores N m i) i).estados j = m.estados j) :
    (∀ j, j ≠ i →
        (tomar_tenedores_solicitud N (liberar_tenedores N m i) i).contadores j
          = m.contadores j) ∧
      ((tomar_tenedores_solicitud N (liberar_tenedores N m i) i).contadores i).pensando
        = (m.contadores i).pensando + 1 ∧
      ((tomar_tenedores_solicitud N (liberar_tenedores N m i) i).contadores i).hambriento
        = (m.contadores i).hambriento + 1 ∧
      ((tomar_tenedores_solicitud N (liberar_tenedores N m i) i).contadores i).comiendo
        = (m.contadores i).comiendo + 1 := by
  have hN2 : 2 ≤ N := by omega
  have hL : (i + N - 1) % N ≠ i := izq_ne hN2 hi
  have hR : (i + 1) % N ≠ i := der_ne hN2 hi
  obtain ⟨m1, hm1⟩ : ∃ m1 : Mesa, m1 =
      { m with
        estados := escribir m.estados i Estado.PENSANDO
        contadores := escribir m.contadores i
          { m.contadores i with pensando := (m.contadores i).pensando + 1 } } := ⟨_, rfl⟩
  have hlib : liberar_tenedores N m i
      = probar N (probar N m1 ((i + N - 1) % N)) ((i + 1) % N) := by rw [hm1]; rfl
  -- the left neighbour is not promoted by the release
  have hnoL : ¬ PuedeComer N m1 ((i + N - 1) % N) := by
    intro hp
    have h1 : m.estados ((i + N - 1) % N) = Estado.HAMBRIENTO := by
      have := hp.1
      rw [hm1] at this
      simpa [escribir, hL] using this
    have h2 : (probar N m1 ((i + N - 1) % N)).estados ((i + N - 1) % N) = Estado.COMIENDO := by
      rw [probar_si hp]; simp [escribir]
    have h3 := higual _ (izq_lt hi)
    rw [hlib, solicitud_mono N _ hL (probar_mono N _ _ h2), h1] at h3
    exact Estado.noConfusion h3
  rw [probar_no hnoL] at hlib
  -- nor is the right neighbour
  have hnoR : ¬ PuedeComer N m1 ((i + 1) % N) := by
    intro hp
    have h1 : m.estados ((i + 1) % N) = Estado.HAMBRIENTO := by
      have := hp.1
      rw [hm1] at this
      simpa [escribir, hR] using this
    have h2 : (probar N m1 ((i + 1) % N)).estados ((i + 1) % N) = Estado.COMIENDO := by
      rw [probar_si hp]; simp [escribir]
    have h3 := higual _ (der_lt hi)
    rw [hlib, solicitud_mono N _ hR h2, h1] at h3
    exact Estado.noConfusion h3
  rw [probar_no hnoR] at hlib
  -- philosopher `i` is promoted again by its own request
  have hsi : PuedeComer N
      { m1 with
        estados := escribir m1.estados i Estado.HAMBRIENTO
        contadores := escribir m1.contadores i
          { m1.contadores i with hambriento := (m1.contadores i).hambriento + 1 } } i := by
    by_contra hno
    have h3 := higual i hi
    rw [hlib] at h3
    unfold tomar_tenedores_solicitud at h3
    rw [probar_no hno, hc] at h3
    simp [escribir] at h3
  rw [hlib]
  unfold tomar_tenedores_solicitud
  rw [probar_si hsi, hm1]
  refine ⟨?_, ?_, ?_, ?_⟩
  · intro j hj; simp [escribir, hj]
  · simp [escribir]
  · simp [escribir]
  · simp [escribir]

/-- Instance of C11: in the ring of five with only philosopher 0 eating, release and new
request of 0 give the same states and add one to each counter of 0. -/
theorem ida_y_vuelta_witness :
    ((tomar_tenedores_solicitud 5
        (liberar_tenedores 5 (ejecutar 5 (Mesa.inicial true) [Paso.tomar 0]) 0) 0).contadores
          0).pensando = 2 ∧
      ((tomar_tenedores_solicitud 5
        (liberar_tenedores 5 (ejecutar 5 (Mesa.inicial true) [Paso.tomar 0]) 0) 0).contadores
          0).hambriento = 2 ∧
      ((tomar_tenedores_solicitud 5
        (liberar_tenedores 5 (ejecutar 5 (Mesa.inicial true) [Paso.tomar 0]) 0) 0).contadores
          0).comiendo = 2 :=
  (ida_y_vuelta 5 (by decide) (ejecutar 5 (Mesa.inicial true) [Paso.tomar 0]) 0 (by decide)
    (by decide) (by decide)).2


/-- C12 fails on the code: no bound on the waiting exists.  For every `B` there is an execution
of the ring of five from the fresh table, respecting the caller discipline (requests while
`PENSANDO`, releases while `COMIENDO`), that first makes philosopher 0 eat and philosopher 1
wait and then continues with steps `ps` of the neighbours 0 and 2 of philosopher 1 such that 1 is
`HAMBRIENTO` after every step of `ps`, is never promoted, and more than `B` releases by its two
neighbours take place in `ps`. -/
theorem espera_no_acotada (B : Nat) :
    ∃ ps : List Paso,
      (∀ p ∈ ps, p.enRango 5 = true ∧ (p.de 0 = true ∨ p.de 2 = true)) ∧
        disciplinada 5 (Mesa.inicial true) ([Paso.tomar 0, Paso.tomar 1] ++ ps) = true ∧
        (ejecutar 5 (Mesa.inicial true) [Paso.tomar 0, Paso.tomar 1]).estados 1
          = Estado.HAMBRIENTO ∧
        hambriento_durante 5 1 (ejecutar 5 (Mesa.inicial true) [Paso.tomar 0, Paso.tomar 1]) ps
          = true ∧
        ((ejecutar 5 (Mesa.inicial true) ([Paso.tomar 0, Paso.tomar 1] ++ ps)).contadores
          1).comiendo = 0 ∧
        B < ciclos 0 ps + ciclos 2 ps := by
  obtain ⟨_, h2, h3, _, _, h6⟩ := repetir_inanicion_efecto (B + 1) mesa_inanicion rfl
  obtain ⟨c0, c2⟩ := ciclos_repetir_inanicion (B + 1)
  refine ⟨repetir (B + 1) ciclo_inanicion, ?_, ?_, by decide, h2, ?_, by omega⟩
  · exact repetir_en_rango (B + 1)
  · rw [disciplinada_append]
    simp only [Bool.and_eq_true]
    exact ⟨by decide, h3⟩
  · rw [ejecutar_append]
    exact h6

/-- C13. The protocol admits a starving schedule: there are a reachable table of the ring of
five, a philosopher `v` that is `HAMBRIENTO` in it, and a non-empty sequence of requests and
releases by the two neighbours of `v`, respecting the caller discipline, in which each
neighbour is released at least once after eating, that returns every philosopher to the same
state and leaves `v` `HAMBRIENTO` after every step; repeated `n` times, for every `n`, it is an
execution in which `v` is `HAMBRIENTO` after every step and is never promoted (its eating
counter does not move) while each neighbour eats `n` more times. -/
theorem existe_inanicion :
    ∃ (m : Mesa) (v : Nat) (ciclo : List Paso),
      Alcanzable 5 m ∧ v < 5 ∧ m.estados v = Estado.HAMBRIENTO ∧ ciclo ≠ [] ∧
        (∀ p ∈ ciclo, p.enRango 5 = true ∧
          (p.de ((v + 5 - 1) % 5) = true ∨ p.de ((v + 1) % 5) = true)) ∧
        disciplinada 5 m ciclo = true ∧
        1 ≤ ciclos ((v + 5 - 1) % 5) ciclo ∧ 1 ≤ ciclos ((v + 1) % 5) ciclo ∧
        (∀ j, (ejecutar 5 m ciclo).estados j = m.estados j) ∧
        hambriento_durante 5 v m ciclo = true ∧
        ∀ n : Nat,
          hambriento_durante 5 v m (repetir n ciclo) = true ∧
            disciplinada 5 m (repetir n ciclo) = true ∧
            ((ejecutar 5 m (repetir n ciclo)).contadores ((v + 5 - 1) % 5)).comiendo
              = (m.contadores ((v + 5 - 1) % 5)).comiendo + (n : Int) ∧
            ((ejecutar 5 m (repetir n ciclo)).contadores ((v + 1) % 5)).comiendo
              = (m.contadores ((v + 1) % 5)).comiendo + (n : Int) ∧
            ((ejecutar 5 m (repetir n ciclo)).contadores v).comiendo
              = (m.contadores v).comiendo := by
  obtain ⟨a1, a2, a3, _, _, _⟩ := ciclo_inanicion_efecto mesa_inanicion rfl
  refine ⟨mesa_inanicion, 1, ciclo_inanicion,
    ⟨true, [Paso.tomar 0, Paso.tomar 1], by decide, rfl⟩, by decide, by decide, by decide,
    by decide, a3, by decide, by decide, fun j => congrFun a1 j, a2, ?_⟩
  intro n
  obtain ⟨_, b2, b3, b4, b5, b6⟩ := repetir_inanicion_efecto n mesa_inanicion rfl
  exact ⟨b2, b3, b4, b5, b6⟩


/-- C14. Snapshot availability flags: for every table and every philosopher `i` of the ring,
the row that `imprimir_estado` writes for `i` reports the left fork as available if and only
if `estados[(i - 1 + N) % N] != COMIENDO`, the right fork as available if and only if
`estados[(i + 1) % N] != COMIENDO`, and the state and the three counters of `i` exactly as
stored; there is one row per philosopher. -/
theorem imprimir_estado_fila (N : Nat) (m : Mesa) (i : Nat) (hi : i < N) :
    (imprimir_estado N m).2.length = N ∧
      ∃ f : Fila, (imprimir_estado N m).2[i]? = some f ∧
        f.indice = i ∧
        (f.tenedor_izq = true ↔ m.estados ((i + N - 1) % N) ≠ Estado.COMIENDO) ∧
        (f.tenedor_der = true ↔ m.estados ((i + 1) % N) ≠ Estado.COMIENDO) ∧
        f.estado = m.estados i ∧
        f.pensando = (m.contadores i).pensando ∧
        f.hambriento = (m.contadores i).hambriento ∧
        f.comiendo = (m.contadores i).comiendo := by
  refine ⟨by simp [imprimir_estado], imprimir_fila N m i, ?_, rfl, ?_, ?_, rfl, rfl, rfl, rfl⟩
  · simp [imprimir_estado, List.getElem?_range hi]
  · simp [imprimir_fila]
  · simp [imprimir_fila]

/-- Instance of C14: with philosopher 0 of five eating, the row of philosopher 1 shows the left
fork as taken and the right fork as available. -/
theorem imprimir_estado_fila_witness :
    (imprimir_estado 5 (ejecutar 5 (Mesa.inicial true) [Paso.tomar 0])).2.length = 5 ∧
      ∃ f : Fila,
        (imprimir_estado 5 (ejecutar 5 (Mesa.inicial true) [Paso.tomar 0])).2[1]? = some f ∧
        f.indice = 1 ∧
        (f.tenedor_izq = true ↔
          (ejecutar 5 (Mesa.inicial true) [Paso.tomar 0]).estados ((1 + 5 - 1) % 5)
            ≠ Estado.COMIENDO) ∧
        (f.tenedor_der = true ↔
          (ejecutar 5 (Mesa.inicial true) [Paso.tomar 0]).estados ((1 + 1) % 5)
            ≠ Estado.COMIENDO) ∧
        f.estado = (ejecutar 5 (Mesa.inicial true) [Paso.tomar 0]).estados 1 ∧
        f.pensando = ((ejecutar 5 (Mesa.inicial true) [Paso.tomar 0]).contadores 1).pensando ∧
        f.hambriento
          = ((ejecutar 5 (Mesa.inicial true) [Paso.tomar 0]).contadores 1).hambriento ∧
        f.comiendo = ((ejecutar 5 (Mesa.inicial true) [Paso.tomar 0]).contadores 1).comiendo :=
  imprimir_estado_fila 5 (ejecutar 5 (Mesa.inicial true) [Paso.tomar 0]) 1 (by decide)

/-- C15. The observer operations are read-only on the table: after `imprimir_estado` and after
`despertar_todos` every state, every counter and the flag `running` are exactly as before, and
`esta_ejecutando` only returns the flag. -/
theorem observadores_solo_lectura (N : Nat) (m : Mesa) :
    ((imprimir_estado N m).1.estados = m.estados ∧
        (imprimir_estado N m).1.contadores = m.contadores ∧
        (imprimir_estado N m).1.running = m.running) ∧
      ((despertar_todos N m).1.estados = m.estados ∧
        (despertar_todos N m).1.contadores = m.contadores ∧
        (despertar_todos N m).1.running = m.running) ∧
      esta_ejecutando m = m.running :=
  ⟨⟨rfl, rfl, rfl⟩, ⟨rfl, rfl, rfl⟩, rfl⟩

/-- C16. Initial table: the constructor of `Mesa` yields a table in which every philosopher
`i` in `[0, N)` is `PENSANDO` with counters `pensando = 1`, `hambriento = 0`, `comiendo = 0`. -/
theorem mesa_inicial (N : Nat) (r : Bool) (i : Nat) (_hi : i < N) :
    (Mesa.inicial r).estados i = Estado.PENSANDO ∧
      ((Mesa.inicial r).contadores i).pensando = 1 ∧
      ((Mesa.inicial r).contadores i).hambriento = 0 ∧
      ((Mesa.inicial r).contadores i).comiendo = 0 :=
  ⟨rfl, rfl, rfl, rfl⟩

/-- Instance of C16 for philosopher 4 of the program's five. -/
theorem mesa_inicial_witness :
    (Mesa.inicial true).estados 4 = Estado.PENSANDO ∧
      ((Mesa.inicial true).contadores 4).pensando = 1 ∧
      ((Mesa.inicial true).contadores 4).hambriento = 0 ∧
      ((Mesa.inicial true).contadores 4).comiendo = 0 :=
  mesa_inicial NUM_FILOSOFOS true 4 (by decide)


/-! ## Misuse, shutdown and the loop of `filosofo` -/

/-- C18 as stated fails on the code: on the fresh table of five, `tomar_tenedores` and
`liberar_tenedores` called with the indices 5 and -1 are not refused with the table left as it
was.  No statement tests the index; the first statement of either call stores to `estados[i]`
outside the array, so the call has no defined outcome at all. -/
theorem indice_fuera_de_rango_no_rechazado :
    (tomar_tenedores_solicitud_comprobado NUM_FILOSOFOS (Mesa.inicial true) 5 = none ∧
        tomar_tenedores_solicitud_comprobado NUM_FILOSOFOS (Mesa.inicial true) 5
          ≠ some (Mesa.inicial true)) ∧
      (liberar_tenedores_comprobado NUM_FILOSOFOS (Mesa.inicial true) 5 = none ∧
        liberar_tenedores_comprobado NUM_FILOSOFOS (Mesa.inicial true) 5
          ≠ some (Mesa.inicial true)) ∧
      (tomar_tenedores_solicitud_comprobado NUM_FILOSOFOS (Mesa.inicial true) (-1) = none ∧
        tomar_tenedores_solicitud_comprobado NUM_FILOSOFOS (Mesa.inicial true) (-1)
          ≠ some (Mesa.inicial true)) ∧
      (liberar_tenedores_comprobado NUM_FILOSOFOS (Mesa.inicial true) (-1) = none ∧
        liberar_tenedores_comprobado NUM_FILOSOFOS (Mesa.inicial true) (-1)
          ≠ some (Mesa.inicial true)) := by
  have h1 : tomar_tenedores_solicitud_comprobado NUM_FILOSOFOS (Mesa.inicial true) 5 = none :=
    rfl
  have h2 : liberar_tenedores_comprobado NUM_FILOSOFOS (Mesa.inicial true) 5 = none := rfl
  have h3 : tomar_tenedores_solicitud_comprobado NUM_FILOSOFOS (Mesa.inicial true) (-1)
      = none := rfl
  have h4 : liberar_tenedores_comprobado NUM_FILOSOFOS (Mesa.inicial true) (-1) = none := rfl
  refine ⟨⟨h1, ?_⟩, ⟨h2, ?_⟩, ⟨h3, ?_⟩, ⟨h4, ?_⟩⟩
  · rw [h1]; exact fun h => Option.noConfusion h
  · rw [h2]; exact fun h => Option.noConfusion h
  · rw [h3]; exact fun h => Option.noConfusion h
  · rw [h4]; exact fun h => Option.noConfusion h

/-- C18 amended: the code has no index check and refuses nothing.  For an index `i` outside
`[0, N)` the first statement of `tomar_tenedores(i)` and of `liberar_tenedores(i)` stores to
`estados[i]` outside the array: the call has undefined behaviour and nothing is promised about
the states and the counters.  For `i` in `[0, N)` every array access of both calls is inside
the arrays and the calls have the effect of `tomar_tenedores_solicitud` and
`liberar_tenedores`.  The range is a precondition on the caller that the code does not test. -/
theorem indice_sin_comprobar (N : Nat) (m : Mesa) (i : Int) :
    (¬ (0 ≤ i ∧ i < (N : Int)) →
        tomar_tenedores_solicitud_comprobado N m i = none ∧
        liberar_tenedores_comprobado N m i = none) ∧
      ((0 ≤ i ∧ i < (N : Int)) →
        tomar_tenedores_solicitud_comprobado N m i
          = some (tomar_tenedores_solicitud N m i.toNat) ∧
        liberar_tenedores_comprobado N m i = some (liberar_tenedores N m i.toNat)) := by
  constructor
  · intro h
    constructor
    · simp [tomar_tenedores_solicitud_comprobado, guardar_estado, h]
    · simp [liberar_tenedores_comprobado, guardar_estado, h]
  · intro h
    obtain ⟨k, rfl⟩ : ∃ k : Nat, i = (k : Int) := ⟨i.toNat, (Int.toNat_of_nonneg h.1).symm⟩
    have hk : k < N := by omega
    rw [Int.toNat_ofNat]
    constructor
    · unfold tomar_tenedores_solicitud_comprobado tomar_tenedores_solicitud
      rw [guardar_estado_dentro m hk, Option.some_bind, guardar_contadores_dentro _ hk,
        Option.some_bind, probar_comprobado_dentro _ hk]
    · unfold liberar_tenedores_comprobado liberar_tenedores
      rw [guardar_estado_dentro m hk, Option.some_bind, guardar_contadores_dentro _ hk,
        Option.some_bind, tmod_izq hk, tmod_der N k, probar_comprobado_dentro _ (izq_lt hk),
        Option.some_bind, probar_comprobado_dentro _ (der_lt hk)]

/-- Instance of C18 amended: index 7 on the table of five where philosopher 0 eats, and
index 1 on the same table. -/
theorem indice_sin_comprobar_witness :
    (tomar_tenedores_solicitud_comprobado 5 (ejecutar 5 (Mesa.inicial true) [Paso.tomar 0]) 7
        = none ∧
      liberar_tenedores_comprobado 5 (ejecutar 5 (Mesa.inicial true) [Paso.tomar 0]) 7
        = none) ∧
      (tomar_tenedores_solicitud_comprobado 5 (ejecutar 5 (Mesa.inicial true) [Paso.tomar 0]) 1
        = some (tomar_tenedores_solicitud 5 (ejecutar 5 (Mesa.inicial true) [Paso.tomar 0])
            (1 : Int).toNat) ∧
      liberar_tenedores_comprobado 5 (ejecutar 5 (Mesa.inicial true) [Paso.tomar 0]) 1
        = some (liberar_tenedores 5 (ejecutar 5 (Mesa.inicial true) [Paso.tomar 0])
            (1 : Int).toNat)) :=
  ⟨(indice_sin_comprobar 5 (ejecutar 5 (Mesa.inicial true) [Paso.tomar 0]) 7).1 (by decide),
    (indice_sin_comprobar 5 (ejecutar 5 (Mesa.inicial true) [Paso.tomar 0]) 1).2 (by decide)⟩

/-- C19 fails on the code: no statement of the program stores to `running`.  Whatever the
philosopher threads do during the sleeps of the display loop, for any number of iterations,
the loop `while (running)` of `main` has not ended, so `despertar_todos` and the joins are not
reached, and the flag is still `true` on every table the philosophers produce. -/
theorem main_no_termina (entorno : List (List Paso))
    (h : ∀ e ∈ entorno, ∀ p ∈ e, p.deFilosofo = true) :
    main entorno = none ∧
      ∀ ps : List Paso, (∀ p ∈ ps, p.deFilosofo = true) →
        (ejecutar NUM_FILOSOFOS (Mesa.inicial true) ps).running = true := by
  constructor
  · unfold main
    rw [main_bucle_no_termina NUM_FILOSOFOS entorno (Mesa.inicial true) rfl h]
  · intro ps hps
    rw [ejecutar_running_filosofos NUM_FILOSOFOS ps _ hps]
    rfl

/-- Instance of C19: three display periods during which philosophers 0 and 1 eat in turn. -/
theorem main_no_termina_witness :
    main [[Paso.tomar 0, Paso.tomar 1], [Paso.liberar 0], [Paso.liberar 1]] = none :=
  (main_no_termina [[Paso.tomar 0, Paso.tomar 1], [Paso.liberar 0], [Paso.liberar 1]]
    (by decide)).1

/-- C20. Loop of `filosofo(id)` on shutdown: in an iteration entered with the flag true in
which `tomar_tenedores(id)` returns, if the flag is then read as false by the `if`, the
iteration issues no `liberar_tenedores(id)` (its only table operation is the request) and, the
flag not being set again, the loop exits without any further table operation; if the flag is
read as true, the iteration issues exactly one `liberar_tenedores(id)`, after the eating
sleep. -/
theorem filosofo_iteracion (N id : Nat) (m : Mesa) (en : Entorno) (resto : List Entorno)
    (hrun : esta_ejecutando m = true) (m2 : Mesa)
    (hret : tomar_tenedores N (ejecutar N m en.pensar) id en.espera = some m2) :
    (esta_ejecutando (ejecutar N m2 en.antes_si) = false →
        filosofo_cuerpo N id m en = (some (ejecutar N m2 en.antes_si), [Paso.tomar id]) ∧
        ((∀ p ∈ en.despues, p ≠ Paso.bandera true) →
          filosofo N id m (en :: resto)
            = (some (ejecutar N (ejecutar N m2 en.antes_si) en.despues), [Paso.tomar id]))) ∧
      (esta_ejecutando (ejecutar N m2 en.antes_si) = true →
        filosofo_cuerpo N id m en
            = (some (liberar_tenedores N (ejecutar N (ejecutar N m2 en.antes_si) en.comer) id),
                [Paso.tomar id, Paso.liberar id]) ∧
        (filosofo N id m (en :: resto)).2
            = [Paso.tomar id, Paso.liberar id] ++
                (filosofo N id
                  (ejecutar N
                    (liberar_tenedores N (ejecutar N (ejecutar N m2 en.antes_si) en.comer) id)
                    en.despues) resto).2) := by
  constructor
  · intro hno
    have hcuerpo : filosofo_cuerpo N id m en
        = (some (ejecutar N m2 en.antes_si), [Paso.tomar id]) := by
      unfold filosofo_cuerpo
      rw [hret]
      simp [hno]
    refine ⟨hcuerpo, fun hdesp => ?_⟩
    have hfin : esta_ejecutando (ejecutar N (ejecutar N m2 en.antes_si) en.despues) = false :=
      ejecutar_running_false N en.despues _ hno hdesp
    rw [filosofo, if_pos hrun, hcuerpo]
    cases resto <;> simp [filosofo, hfin]
  · intro hsi
    have hcuerpo : filosofo_cuerpo N id m en
        = (some (liberar_tenedores N (ejecutar N (ejecutar N m2 en.antes_si) en.comer) id),
            [Paso.tomar id, Paso.liberar id]) := by
      unfold filosofo_cuerpo
      rw [hret]
      simp [hsi]
    refine ⟨hcuerpo, ?_⟩
    rw [filosofo, if_pos hrun, hcuerpo]

/-- Instance of C20: philosopher 1 of five asks while 0 eats, the flag is cleared during its
wait, the call returns, and the thread leaves the loop having issued the request only. -/
theorem filosofo_iteracion_witness :
    filosofo 5 1 (ejecutar 5 (Mesa.inicial true) [Paso.tomar 0])
        [{ pensar := [], espera := [[Paso.bandera false]], antes_si := [], comer := [],
           despues := [Paso.liberar 0] }]
      = (some (ejecutar 5
          (ejecutar 5
            (ejecutar 5
              (tomar_tenedores_solicitud 5 (ejecutar 5 (Mesa.inicial true) [Paso.tomar 0]) 1)
              [Paso.bandera false])
            [])
          [Paso.liberar 0]), [Paso.tomar 1]) :=
  ((filosofo_iteracion 5 1 (ejecutar 5 (Mesa.inicial true) [Paso.tomar 0])
    { pensar := [], espera := [[Paso.bandera false]], antes_si := [], comer := [],
      despues := [Paso.liberar 0] } [] rfl _ rfl).1 rfl).2 (by decide)


/-! ## Further properties of the table -/

/-- C22. Capacity bound: in every table of the ring of five reachable by acquire and release
steps, at most 2 philosophers are `COMIENDO` at the same time. -/
theorem capacidad_cinco (m : Mesa) (hm : Alcanzable 5 m) : comensales 5 m ≤ 2 := by
  have h1 := (alcanzable_invariante (by decide) hm).1
  have h01 := h1 0 (by decide)
  have h12 := h1 1 (by decide)
  have h23 := h1 2 (by decide)
  have h34 := h1 3 (by decide)
  have h40 := h1 4 (by decide)
  simp only [Nat.reduceAdd, Nat.reduceMod] at h01 h12 h23 h34 h40
  have hr : List.range 5 = [0, 1, 2, 3, 4] := by decide
  unfold comensales
  rw [hr]
  by_cases e0 : m.estados 0 = Estado.COMIENDO <;>
  by_cases e1 : m.estados 1 = Estado.COMIENDO <;>
  by_cases e2 : m.estados 2 = Estado.COMIENDO <;>
  by_cases e3 : m.estados 3 = Estado.COMIENDO <;>
  by_cases e4 : m.estados 4 = Estado.COMIENDO <;>
  simp [List.filter, e0, e1, e2, e3, e4] at h01 h12 h23 h34 h40 ⊢

/-- Instance of C22: after all five philosophers asked in turn, two of them eat. -/
theorem capacidad_cinco_witness :
    comensales 5
      (ejecutar 5 (Mesa.inicial true)
        [Paso.tomar 0, Paso.tomar 1, Paso.tomar 2, Paso.tomar 3, Paso.tomar 4]) ≤ 2 :=
  capacidad_cinco _
    ⟨true, [Paso.tomar 0, Paso.tomar 1, Paso.tomar 2, Paso.tomar 3, Paso.tomar 4],
      by decide, rfl⟩

/-- C25. Counter and state consistency without any caller discipline: in every table
reachable from the initial one by an arbitrary sequence of in-range acquire and release steps
(repeated requests, releases by a philosopher that is not eating included), for every
philosopher `comiendo ≤ hambriento` (it was never promoted more often than it asked),
`pensando ≥ 1`, and `comiendo < hambriento` whenever it is `HAMBRIENTO`. -/
theorem contadores_coherentes (N : Nat) (m : Mesa) (hm : Alcanzable N m) (i : Nat)
    (_hi : i < N) :
    (m.contadores i).comiendo ≤ (m.contadores i).hambriento ∧
      1 ≤ (m.contadores i).pensando ∧
      (m.estados i = Estado.HAMBRIENTO →
        (m.contadores i).comiendo < (m.contadores i).hambriento) := by
  obtain ⟨r, ps, _, rfl⟩ := hm
  obtain ⟨h1, h2, h3⟩ := ejecutar_coherente N i ps _ (inicial_coherente r i)
  exact ⟨h2, h1, h3⟩

/-- Instance of C25: philosopher 1 of five asks twice while 0 eats, then releases without
having eaten and asks again. -/
theorem contadores_coherentes_witness :
    ((ejecutar 5 (Mesa.inicial true)
          [Paso.tomar 0, Paso.tomar 1, Paso.tomar 1, Paso.liberar 1, Paso.tomar 1]).contadores
            1).comiendo
        ≤ ((ejecutar 5 (Mesa.inicial true)
          [Paso.tomar 0, Paso.tomar 1, Paso.tomar 1, Paso.liberar 1, Paso.tomar 1]).contadores
            1).hambriento ∧
      1 ≤ ((ejecutar 5 (Mesa.inicial true)
          [Paso.tomar 0, Paso.tomar 1, Paso.tomar 1, Paso.liberar 1, Paso.tomar 1]).contadores
            1).pensando ∧
      ((ejecutar 5 (Mesa.inicial true)
          [Paso.tomar 0, Paso.tomar 1, Paso.tomar 1, Paso.liberar 1, Paso.tomar 1]).estados 1
            = Estado.HAMBRIENTO →
        ((ejecutar 5 (Mesa.inicial true)
          [Paso.tomar 0, Paso.tomar 1, Paso.tomar 1, Paso.liberar 1, Paso.tomar 1]).contadores
            1).comiendo
          < ((ejecutar 5 (Mesa.inicial true)
            [Paso.tomar 0, Paso.tomar 1, Paso.tomar 1, Paso.liberar 1,
              Paso.tomar 1]).contadores 1).hambriento) :=
  contadores_coherentes 5 _
    ⟨true, [Paso.tomar 0, Paso.tomar 1, Paso.tomar 1, Paso.liberar 1, Paso.tomar 1],
      by decide, rfl⟩ 1 (by decide)


/-- C24. The tie-break of the release is immaterial on the ring of five: for every table and
every `i` in `[0, 5)`, `liberar_tenedores(i)` as written (left neighbour first) yields exactly
the same table, states and counters, as the variant that examines the right neighbour first,
the two neighbours of `i` not being adjacent to each other.  On a ring of three the orders
differ: with 0 eating and 1 and 2 waiting, the release of 0 promotes 2 as written and 1 in the
variant. -/
theorem desempate_inmaterial_cinco :
    (∀ (m : Mesa) (i : Nat), i < 5 →
        liberar_tenedores 5 m i = liberar_tenedores_der_izq 5 m i) ∧
      ((liberar_tenedores 3
            (ejecutar 3 (Mesa.inicial true) [Paso.tomar 0, Paso.tomar 1, Paso.tomar 2])
            0).estados 2 = Estado.COMIENDO ∧
        (liberar_tenedores 3
            (ejecutar 3 (Mesa.inicial true) [Paso.tomar 0, Paso.tomar 1, Paso.tomar 2])
            0).estados 1 = Estado.HAMBRIENTO ∧
        (liberar_tenedores_der_izq 3
            (ejecutar 3 (Mesa.inicial true) [Paso.tomar 0, Paso.tomar 1, Paso.tomar 2])
            0).estados 2 = Estado.HAMBRIENTO ∧
        (liberar_tenedores_der_izq 3
            (ejecutar 3 (Mesa.inicial true) [Paso.tomar 0, Paso.tomar 1, Paso.tomar 2])
            0).estados 1 = Estado.COMIENDO) := by
  refine ⟨?_, by decide⟩
  intro m i hi
  unfold liberar_tenedores liberar_tenedores_der_izq
  exact probar_conmuta 5 _ (by omega) (by omega) (by omega) (by omega) (by omega)

/-- Instance of C24: release of philosopher 0 of five while 1 and 4 wait. -/
theorem desempate_inmaterial_cinco_witness :
    liberar_tenedores 5
        (ejecutar 5 (Mesa.inicial true) [Paso.tomar 0, Paso.tomar 1, Paso.tomar 4]) 0
      = liberar_tenedores_der_izq 5
        (ejecutar 5 (Mesa.inicial true) [Paso.tomar 0, Paso.tomar 1, Paso.tomar 4]) 0 :=
  desempate_inmaterial_cinco.1
    (ejecutar 5 (Mesa.inicial true) [Paso.tomar 0, Paso.tomar 1, Paso.tomar 4]) 0 (by decide)

/-- C26. The table update of `tomar_tenedores(i)` does not depend on the flag `running`: on
two tables with the same states and counters, one with `running = true` and one with
`running = false`, the request phase yields the same states and counters.  In particular a
request issued after shutdown still adds one to `contadores[i].hambriento`, leaves `i`
`COMIENDO` with `contadores[i].comiendo` one larger when no neighbour is `COMIENDO` and
`HAMBRIENTO` otherwise, and the call returns at once with that table. -/
theorem solicitud_independiente_de_running (N : Nat) (hN : 2 ≤ N) (m1 m2 : Mesa) (i : Nat)
    (hi : i < N) (he : m1.estados = m2.estados) (hc : m1.contadores = m2.contadores)
    (_hr1 : m1.running = true) (hr2 : m2.running = false) :
    (tomar_tenedores_solicitud N m1 i).estados = (tomar_tenedores_solicitud N m2 i).estados ∧
      (tomar_tenedores_solicitud N m1 i).contadores
        = (tomar_tenedores_solicitud N m2 i).contadores ∧
      ((tomar_tenedores_solicitud N m2 i).contadores i).hambriento
        = (m2.contadores i).hambriento + 1 ∧
      ((m2.estados ((i + N - 1) % N) ≠ Estado.COMIENDO ∧
          m2.estados ((i + 1) % N) ≠ Estado.COMIENDO) →
        (tomar_tenedores_solicitud N m2 i).estados i = Estado.COMIENDO ∧
        ((tomar_tenedores_solicitud N m2 i).contadores i).comiendo
          = (m2.contadores i).comiendo + 1) ∧
      (¬ (m2.estados ((i + N - 1) % N) ≠ Estado.COMIENDO ∧
          m2.estados ((i + 1) % N) ≠ Estado.COMIENDO) →
        (tomar_tenedores_solicitud N m2 i).estados i = Estado.HAMBRIENTO ∧
        ((tomar_tenedores_solicitud N m2 i).contadores i).comiendo
          = (m2.contadores i).comiendo) ∧
      (∀ entorno, tomar_tenedores N m2 i entorno = some (tomar_tenedores_solicitud N m2 i)) := by
  have hm1 : m1 = { m2 with running := m1.running } := by
    obtain ⟨e1, r1, c1⟩ := m1
    simp only at he hc
    subst he hc
    rfl
  obtain ⟨a1, a2, a3⟩ := solicitud_casos hN m2 hi
  refine ⟨?_, ?_, a1, a2, a3, ?_⟩
  · rw [hm1, solicitud_con_running]
  · rw [hm1, solicitud_con_running]
  · intro entorno
    unfold tomar_tenedores
    apply espera_inmediata
    rw [guarda_false_iff]
    right
    rw [solicitud_running]
    exact hr2

/-- Instance of C26: philosopher 1 of five asks on the fresh table with the flag set and with
the flag cleared. -/
theorem solicitud_independiente_de_running_witness :
    (tomar_tenedores_solicitud 5 (Mesa.inicial true) 1).estados
        = (tomar_tenedores_solicitud 5 (Mesa.inicial false) 1).estados ∧
      (tomar_tenedores_solicitud 5 (Mesa.inicial true) 1).contadores
        = (tomar_tenedores_solicitud 5 (Mesa.inicial false) 1).contadores :=
  have h := solicitud_independiente_de_running 5 (by decide) (Mesa.inicial true)
    (Mesa.inicial false) 1 (by decide) rfl rfl rfl rfl
  ⟨h.1, h.2.1⟩


/-- C23. Caller discipline of the loop of `filosofo(id)`: when the other threads only issue
calls with indices other than `id` and nobody stores `true` to the flag (once false it stays
false), then, whatever the interleaving, the table operations issued by `filosofo(id)` started
with `id` `PENSANDO` form a prefix of `tomar(id), liberar(id), tomar(id), liberar(id), ...`,
every `tomar_tenedores(id)` is issued on a table where `estados[id] == PENSANDO` and every
`liberar_tenedores(id)` on a table where `estados[id] == COMIENDO`. -/
theorem disciplina_filosofo (N id : Nat) (ens : List Entorno) :
    ∀ m : Mesa, m.estados id = Estado.PENSANDO → (∀ en ∈ ens, en.ajeno id = true) →
      (filosofo_registro N id m ens).map Prod.fst = (filosofo N id m ens).2 ∧
        alterna id (filosofo N id m ens).2 = true ∧
        ∀ x ∈ filosofo_registro N id m ens,
          (x.1 = Paso.tomar id ∧ x.2.estados id = Estado.PENSANDO) ∨
            (x.1 = Paso.liberar id ∧ x.2.estados id = Estado.COMIENDO) := by
  induction ens with
  | nil =>
    intro m _ _
    by_cases hrun : esta_ejecutando m = true <;> simp [filosofo_registro, filosofo, hrun, alterna]
  | cons en resto ih =>
    intro m hm hens
    have hen := hens en (List.mem_cons_self en resto)
    have hresto : ∀ e ∈ resto, e.ajeno id = true :=
      fun e he => hens e (List.mem_cons_of_mem en he)
    simp only [Entorno.ajeno, Bool.and_eq_true] at hen
    obtain ⟨⟨⟨⟨hpen, hesp⟩, hant⟩, hcom⟩, hdes⟩ := hen
    by_cases hrun : esta_ejecutando m = true
    · have hP1 : (ejecutar N m en.pensar).estados id = Estado.PENSANDO := by
        rw [ejecutar_ajeno_estable N id en.pensar m hpen (Or.inl hm)]; exact hm
      cases hret : tomar_tenedores N (ejecutar N m en.pensar) id en.espera with
      | none =>
        simp [filosofo_registro, filosofo, filosofo_cuerpo, hrun, hret, alterna, hP1]
      | some m2 =>
        by_cases hsi : esta_ejecutando (ejecutar N m2 en.antes_si) = true
        · -- the call returned with the flag still set: `id` has been promoted
          have hg := (espera_some en.espera _ m2 hret).1
          have hC2 : m2.estados id = Estado.COMIENDO := by
            rcases (guarda_false_iff m2 id).mp hg with h | h
            · exact h
            · have := ejecutar_running_false N en.antes_si m2 h (ajeno_no_enciende hant)
              rw [esta_ejecutando, this] at hsi
              exact absurd hsi (by decide)
          have hC3 : (ejecutar N m2 en.antes_si).estados id = Estado.COMIENDO := by
            rw [ejecutar_ajeno_estable N id en.antes_si m2 hant (Or.inr hC2)]; exact hC2
          have hC4 : (ejecutar N (ejecutar N m2 en.antes_si) en.comer).estados id
              = Estado.COMIENDO := by
            rw [ejecutar_ajeno_estable N id en.comer _ hcom (Or.inr hC3)]; exact hC3
          have hP5 : (ejecutar N
              (liberar_tenedores N (ejecutar N (ejecutar N m2 en.antes_si) en.comer) id)
              en.despues).estados id = Estado.PENSANDO := by
            rw [ejecutar_ajeno_estable N id en.despues _ hdes
              (Or.inl (liberar_estado_propio N _ id))]
            exact liberar_estado_propio N _ id
          obtain ⟨i1, i2, i3⟩ := ih _ hP5 hresto
          refine ⟨?_, ?_, ?_⟩
          · simp [filosofo_registro, filosofo, filosofo_cuerpo, hrun, hret, hsi, i1]
          · simp [filosofo, filosofo_cuerpo, hrun, hret, hsi, alterna, i2]
          · intro x hx
            simp only [filosofo_registro, hrun, hret, hsi, if_true, List.mem_cons] at hx
            rcases hx with h | h | h
            · left; rw [h]; exact ⟨rfl, hP1⟩
            · right; rw [h]; exact ⟨rfl, hC4⟩
            · exact i3 x h
        · -- the flag was read as false: no release, and the loop exits
          have hno : esta_ejecutando (ejecutar N m2 en.antes_si) = false := by
            simpa using hsi
          have hfin : esta_ejecutando (ejecutar N (ejecutar N m2 en.antes_si) en.despues)
              = false :=
            ejecutar_running_false N en.despues _ hno (ajeno_no_enciende hdes)
          obtain ⟨f1, f2⟩ := filosofo_parado N id _ resto hfin
          refine ⟨?_, ?_, ?_⟩
          · simp [filosofo_registro, filosofo, filosofo_cuerpo, hrun, hret, hno, f1, f2]
          · simp [filosofo, filosofo_cuerpo, hrun, hret, hno, f1, alterna]
          · intro x hx
            simp [filosofo_registro, hrun, hret, hno, f2] at hx
            left; rw [hx]; exact ⟨rfl, hP1⟩
    · simp [filosofo_registro, filosofo, hrun, alterna]


/-- Instance of C23: philosopher 1 of five waits for 0, eats, releases, asks again while 2
eats and leaves the loop because the flag was cleared; its operations are a request, a release
and a request. -/
theorem disciplina_filosofo_witness :
    (filosofo 5 1 (Mesa.inicial true)
        [{ pensar := [Paso.tomar 0], espera := [[Paso.liberar 0]], antes_si := [],
           comer := [Paso.tomar 2], despues := [] },
         { pensar := [Paso.bandera false], espera := [], antes_si := [], comer := [],
           despues := [] }]).2 = [Paso.tomar 1, Paso.liberar 1, Paso.tomar 1] ∧
      alterna 1
        (filosofo 5 1 (Mesa.inicial true)
          [{ pensar := [Paso.tomar 0], espera := [[Paso.liberar 0]], antes_si := [],
             comer := [Paso.tomar 2], despues := [] },
           { pensar := [Paso.bandera false], espera := [], antes_si := [], comer := [],
             despues := [] }]).2 = true :=
  ⟨by decide,
    (disciplina_filosofo 5 1
      [{ pensar := [Paso.tomar 0], espera := [[Paso.liberar 0]], antes_si := [],
         comer := [Paso.tomar 2], despues := [] },
       { pensar := [Paso.bandera false], espera := [], antes_si := [], comer := [],
         despues := [] }] (Mesa.inicial true) rfl (by decide)).2.1⟩

end Filosofos

/-! ## Unit choice of `format_bytes` -/

namespace Formato

theorem bucle_tope (fuel : Nat) (size : Rat) : format_bytes_bucle fuel size 3 = (size, 3) := by
  cases fuel <;> simp [format_bytes_bucle]

theorem format_bytes_casos (f : Nat) (b : Int) :
    format_bytes (f + 3) b =
      if (b : Rat) < 1024 then ((b : Rat), 0)
      else if (b : Rat) < 1024 ^ 2 then ((b : Rat) / 1024, 1)
      else if (b : Rat) < 1024 ^ 3 then ((b : Rat) / 1024 / 1024, 2)
      else ((b : Rat) / 1024 / 1024 / 1024, 3) := by
  have e1 : (1024 : Rat) ≤ (b : Rat) / 1024 ↔ (1024 : Rat) ^ 2 ≤ (b : Rat) := by
    rw [le_div_iff₀ (by norm_num)]; norm_num
  have e2 : (1024 : Rat) ≤ (b : Rat) / 1024 / 1024 ↔ (1024 : Rat) ^ 3 ≤ (b : Rat) := by
    rw [le_div_iff₀ (by norm_num), le_div_iff₀ (by norm_num)]; norm_num
  simp only [format_bytes, format_bytes_bucle, Nat.zero_add, Nat.reduceAdd, bucle_tope, e1, e2]
  by_cases h1 : (b : Rat) < 1024
  · simp [h1, not_le.mpr h1]
  · by_cases h2 : (b : Rat) < 1024 ^ 2
    · simp [h1, h2, not_lt.mp h1, not_le.mpr h2]
    · by_cases h3 : (b : Rat) < 1024 ^ 3
      · simp [h1, h2, h3, not_lt.mp h1, not_lt.mp h2, not_le.mpr h3]
      · simp [h1, h2, h3, not_lt.mp h1, not_lt.mp h2, not_lt.mp h3]

theorem format_bytes_valor (b : Int) (fuel : Nat) (hf : 3 ≤ fuel) :
    (b < 1024 → format_bytes fuel b = ((b : Rat), 0)) ∧
      (1024 ≤ b → b < 1024 ^ 2 → format_bytes fuel b = ((b : Rat) / 1024, 1)) ∧
      (1024 ^ 2 ≤ b → b < 1024 ^ 3 → format_bytes fuel b = ((b : Rat) / 1024 / 1024, 2)) ∧
      (1024 ^ 3 ≤ b → format_bytes fuel b = ((b : Rat) / 1024 / 1024 / 1024, 3)) := by
  obtain ⟨f, rfl⟩ : ∃ f, fuel = f + 3 := ⟨fuel - 3, by omega⟩
  rw [format_bytes_casos]
  refine ⟨?_, ?_, ?_, ?_⟩
  · intro h1
    have q1 : (b : Rat) < 1024 := by exact_mod_cast h1
    rw [if_pos q1]
  · intro h1 h2
    have q1 : ¬ (b : Rat) < 1024 := by
      have : (1024 : Rat) ≤ (b : Rat) := by exact_mod_cast h1
      linarith
    have q2 : (b : Rat) < 1024 ^ 2 := by exact_mod_cast h2
    rw [if_neg q1, if_pos q2]
  · intro h2 h3
    have p2 : (1024 : Rat) ^ 2 ≤ (b : Rat) := by exact_mod_cast h2
    have q1 : ¬ (b : Rat) < 1024 := by
      have : (1024 : Rat) < 1024 ^ 2 := by norm_num
      linarith
    have q2 : ¬ (b : Rat) < 1024 ^ 2 := by linarith
    have q3 : (b : Rat) < 1024 ^ 3 := by exact_mod_cast h3
    rw [if_neg q1, if_neg q2, if_pos q3]
  · intro h3
    have p3 : (1024 : Rat) ^ 3 ≤ (b : Rat) := by exact_mod_cast h3
    have q1 : ¬ (b : Rat) < 1024 := by
      have : (1024 : Rat) < 1024 ^ 3 := by norm_num
      linarith
    have q2 : ¬ (b : Rat) < 1024 ^ 2 := by
      have : (1024 : Rat) ^ 2 < 1024 ^ 3 := by norm_num
      linarith
    have q3 : ¬ (b : Rat) < 1024 ^ 3 := by linarith
    rw [if_neg q1, if_neg q2, if_neg q3]

/-- C21. Unit choice of `format_bytes`, over exact rationals: for every byte count `b ≥ 0`
the loop has exited after at most 3 iterations (any fuel of 3 or more gives the result of fuel
3, on which the loop guard is false); the unit index `u` stays in `0..3`, a valid index of
`units`; `u = 0` when `b < 1024` and otherwise `u` is the largest index in `0..3` with
`1024 ^ u ≤ b`; the printed magnitude is `b / 1024 ^ u`, and it lies in `[1, 1024)` whenever
`1024 ≤ b < 1024 ^ 4`. -/
theorem format_bytes_unidad (b : Int) (hb : 0 ≤ b) (fuel : Nat) (hf : 3 ≤ fuel) :
    format_bytes fuel b = format_bytes 3 b ∧
      ¬ (1024 ≤ (format_bytes fuel b).1 ∧ (format_bytes fuel b).2 < 3) ∧
      (format_bytes fuel b).2 ≤ 3 ∧
      (format_bytes fuel b).2 < units.length ∧
      (b < 1024 → (format_bytes fuel b).2 = 0) ∧
      (1 ≤ b → (1024 : Int) ^ (format_bytes fuel b).2 ≤ b ∧
        ∀ v : Nat, v ≤ 3 → (1024 : Int) ^ v ≤ b → v ≤ (format_bytes fuel b).2) ∧
      (format_bytes fuel b).1 = (b : Rat) / 1024 ^ (format_bytes fuel b).2 ∧
      (1024 ≤ b → b < 1024 ^ 4 →
        1 ≤ (format_bytes fuel b).1 ∧ (format_bytes fuel b).1 < 1024) := by
  obtain ⟨v0, v1, v2, v3⟩ := format_bytes_valor b fuel hf
  obtain ⟨w0, w1, w2, w3⟩ := format_bytes_valor b 3 (le_refl 3)
  have hlen : units.length = 4 := rfl
  rw [hlen]
  by_cases h1 : b < 1024
  · rw [v0 h1, w0 h1]
    have q1 : (b : Rat) < 1024 := by exact_mod_cast h1
    refine ⟨rfl, ?_, by norm_num, by norm_num, fun _ => rfl, ?_, by simp, ?_⟩
    · intro h; linarith [h.1]
    · intro hb1
      refine ⟨by simpa using hb1, ?_⟩
      intro v hv hle
      interval_cases v <;> norm_num at hle ⊢ <;> omega
    · intro h; omega
  · by_cases h2 : b < 1024 ^ 2
    · rw [v1 (by omega) h2, w1 (by omega) h2]
      have p1 : (1024 : Rat) ≤ (b : Rat) := by exact_mod_cast (not_lt.mp h1)
      have q2 : (b : Rat) < 1024 ^ 2 := by exact_mod_cast h2
      refine ⟨rfl, ?_, by norm_num, by norm_num, fun h => absurd h h1, ?_, by simp, ?_⟩
      · intro h
        have := h.1
        simp only at this
        rw [le_div_iff₀ (by norm_num)] at this
        linarith
      · intro _
        refine ⟨by simp only [pow_one]; omega, ?_⟩
        intro v hv hle
        interval_cases v <;> norm_num at hle h2 ⊢ <;> omega
      · intro _ _
        simp only
        constructor
        · rw [le_div_iff₀ (by norm_num)]; linarith
        · rw [div_lt_iff₀ (by norm_num)]; linarith
    · by_cases h3 : b < 1024 ^ 3
      · rw [v2 (by omega) h3, w2 (by omega) h3]
        have p2 : (1024 : Rat) ^ 2 ≤ (b : Rat) := by exact_mod_cast (not_lt.mp h2)
        have q3 : (b : Rat) < 1024 ^ 3 := by exact_mod_cast h3
        refine ⟨rfl, ?_, by norm_num, by norm_num, fun h => absurd h h1, ?_, ?_, ?_⟩
        · intro h
          have := h.1
          simp only at this
          rw [le_div_iff₀ (by norm_num), le_div_iff₀ (by norm_num)] at this
          linarith
        · intro _
          refine ⟨by simp only; omega, ?_⟩
          intro v hv hle
          show v ≤ 2
          by_contra hc
          have hv3 : v = 3 := by omega
          subst hv3
          norm_num at hle
          omega
        · simp only; rw [div_div]; norm_num
        · intro _ _
          simp only
          constructor
          · rw [le_div_iff₀ (by norm_num), le_div_iff₀ (by norm_num)]; linarith
          · rw [div_lt_iff₀ (by norm_num), div_lt_iff₀ (by norm_num)]; linarith
      · rw [v3 (by omega), w3 (by omega)]
        have p3 : (1024 : Rat) ^ 3 ≤ (b : Rat) := by exact_mod_cast (not_lt.mp h3)
        refine ⟨rfl, ?_, by norm_num, by norm_num, fun h => absurd h h1, ?_, ?_, ?_⟩
        · intro h
          have := h.2
          simp at this
        · intro _
          refine ⟨by simp only; omega, ?_⟩
          intro v hv _
          exact hv
        · simp only; rw [div_div, div_div]; norm_num
        · intro _ h4
          have q4 : (b : Rat) < 1024 ^ 4 := by exact_mod_cast h4
          simp only
          constructor
          · rw [le_div_iff₀ (by norm_num), le_div_iff₀ (by norm_num),
              le_div_iff₀ (by norm_num)]
            linarith
          · rw [div_lt_iff₀ (by norm_num), div_lt_iff₀ (by norm_num),
              div_lt_iff₀ (by norm_num)]
            linarith

/-- Instance of C21 for 5000 bytes: the unit chosen satisfies `1024 ^ u ≤ 5000`, and it is
`KB`. -/
theorem format_bytes_unidad_witness :
    (1024 : Int) ^ (format_bytes 7 5000).2 ≤ 5000 ∧ (format_bytes 7 5000).2 = 1 :=
  ⟨((format_bytes_unidad 5000 (by decide) 7 (by decide)).2.2.2.2.2.1 (by decide)).1,
    by norm_num [format_bytes, format_bytes_bucle]⟩

end Formato

/-! ## The matrix product -/

namespace Matrices

theorem poner_mismo (M : Nat → Nat → Int) (i j : Nat) (v : Int) : poner M i j v i j = v := by
  simp [poner]

theorem poner_otro (M : Nat → Nat → Int) (i j : Nat) (v : Int) {a b : Nat}
    (h : ¬ (a = i ∧ b = j)) : poner M i j v a b = M a b := by
  unfold poner
  rw [if_neg h]

theorem bucle_k_efecto (A B : Nat → Nat → Int) (i j : Nat) (n : Nat)
    (st : (Nat → Nat → Int) × Int) :
    (bucle_k A B i j n st).1 i j
        = st.1 i j + Finset.sum (Finset.range n) (fun k => A i k * B k j) ∧
      (∀ a b, ¬ (a = i ∧ b = j) → (bucle_k A B i j n st).1 a b = st.1 a b) ∧
      (bucle_k A B i j n st).2 = st.2 + 2 * (n : Int) := by
  induction n with
  | zero => simp [bucle_k]
  | succ n ih =>
    obtain ⟨h1, h2, h3⟩ := ih
    refine ⟨?_, ?_, ?_⟩
    · simp only [bucle_k, poner_mismo, h1, Finset.sum_range_succ]
      ring
    · intro a b hab
      simp only [bucle_k]
      rw [poner_otro _ _ _ _ hab]
      exact h2 a b hab
    · simp only [bucle_k, h3]
      push_cast
      ring

theorem bucle_j_efecto (A B : Nat → Nat → Int) (columnas_A i : Nat) (n : Nat)
    (st : (Nat → Nat → Int) × Int) :
    (∀ j, j < n → (bucle_j A B columnas_A i n st).1 i j
        = Finset.sum (Finset.range columnas_A) (fun k => A i k * B k j)) ∧
      (∀ a b, ¬ (a = i ∧ b < n) → (bucle_j A B columnas_A i n st).1 a b = st.1 a b) ∧
      (bucle_j A B columnas_A i n st).2 = st.2 + 2 * (n : Int) * (columnas_A : Int) := by
  induction n with
  | zero => simp [bucle_j]
  | succ n ih =>
    obtain ⟨h1, h2, h3⟩ := ih
    obtain ⟨k1, k2, k3⟩ := bucle_k_efecto A B i n columnas_A
      (poner (bucle_j A B columnas_A i n st).1 i n 0, (bucle_j A B columnas_A i n st).2)
    refine ⟨?_, ?_, ?_⟩
    · intro j hj
      by_cases hjn : j = n
      · subst hjn
        simp only [bucle_j, k1, poner_mismo, zero_add]
      · have hne : ¬ (i = i ∧ j = n) := fun h => hjn h.2
        simp only [bucle_j]
        rw [k2 i j hne]
        have hjlt : j < n := by omega
        dsimp only
        rw [poner_otro _ _ _ _ hne]
        exact h1 j hjlt
    · intro a b hab
      have hne : ¬ (a = i ∧ b = n) := fun h => hab ⟨h.1, by omega⟩
      simp only [bucle_j]
      rw [k2 a b hne]
      have hab2 : ¬ (a = i ∧ b < n) := fun h => hab ⟨h.1, by omega⟩
      dsimp only
      rw [poner_otro _ _ _ _ hne]
      exact h2 a b hab2
    · simp only [bucle_j]
      rw [k3]
      simp only [h3]
      push_cast
      ring

theorem bucle_i_efecto (A B : Nat → Nat → Int) (columnas_A columnas_B : Nat) (n : Nat)
    (st : (Nat → Nat → Int) × Int) :
    (∀ i j, i < n → j < columnas_B → (bucle_i A B columnas_A columnas_B n st).1 i j
        = Finset.sum (Finset.range columnas_A) (fun k => A i k * B k j)) ∧
      (∀ a b, ¬ (a < n ∧ b < columnas_B) →
        (bucle_i A B columnas_A columnas_B n st).1 a b = st.1 a b) ∧
      (bucle_i A B columnas_A columnas_B n st).2
        = st.2 + 2 * (n : Int) * (columnas_B : Int) * (columnas_A : Int) := by
  induction n with
  | zero => simp [bucle_i]
  | succ n ih =>
    obtain ⟨h1, h2, h3⟩ := ih
    obtain ⟨k1, k2, k3⟩ := bucle_j_efecto A B columnas_A n columnas_B
      (bucle_i A B columnas_A columnas_B n st)
    refine ⟨?_, ?_, ?_⟩
    · intro i j hi hj
      by_cases hin : i = n
      · subst hin
        simp only [bucle_i]
        exact k1 j hj
      · simp only [bucle_i]
        rw [k2 i j (fun h => hin h.1)]
        exact h1 i j (by omega) hj
    · intro a b hab
      simp only [bucle_i]
      rw [k2 a b (fun h => hab ⟨by omega, h.2⟩)]
      exact h2 a b (fun h => hab ⟨by omega, h.2⟩)
    · simp only [bucle_i]
      rw [k3, h3]
      push_cast
      ring

theorem bucle_k_comprobado_none (A B : Bloque) (i j n : Nat) :
    bucle_k_comprobado A B i j n none = none := by
  induction n with
  | zero => rfl
  | succ n ih => simp [bucle_k_comprobado, ih]

theorem bucle_j_comprobado_none (A B : Bloque) (cA i n : Nat) :
    bucle_j_comprobado A B cA i n none = none := by
  induction n with
  | zero => rfl
  | succ n ih => simp [bucle_j_comprobado, ih, bucle_k_comprobado_none]

/-- Inside the allocations the checked innermost loop computes what `bucle_k` computes. -/
theorem bucle_k_comprobado_ok (A B R : Bloque) (ops : Int) (i j : Nat)
    (hiA : i < A.filas) (hiR : i < R.filas) (hjB : j < B.columnas) (hjR : j < R.columnas)
    (n : Nat) (hnA : n ≤ A.columnas) (hnB : n ≤ B.filas) :
    bucle_k_comprobado A B i j n (some (R, ops))
      = some ({ R with datos := (bucle_k A.datos B.datos i j n (R.datos, ops)).1 },
          (bucle_k A.datos B.datos i j n (R.datos, ops)).2) := by
  induction n with
  | zero => rfl
  | succ n ih =>
    have h1 : n < A.columnas := by omega
    have h2 : n < B.filas := by omega
    simp [bucle_k_comprobado, ih (by omega) (by omega), Bloque.leer, Bloque.guardar, bucle_k,
      hiA, hiR, hjB, hjR, h1, h2]

/-- The checked innermost loop makes an access outside `matrizB` as soon as it runs past the
rows of `matrizB`. -/
theorem bucle_k_comprobado_falla (A B : Bloque) (i j : Nat) (st : Option (Bloque × Int))
    (n : Nat) (hn : B.filas < n) : bucle_k_comprobado A B i j n st = none := by
  induction n with
  | zero => omega
  | succ n ih =>
    by_cases h : B.filas < n
    · simp [bucle_k_comprobado, ih h]
    · have hB : B.leer n j = none := by
        have : ¬ n < B.filas := by omega
        simp [Bloque.leer, this]
      simp only [bucle_k_comprobado, hB, Option.none_bind]
      cases bucle_k_comprobado A B i j n st with
      | none => rfl
      | some s =>
        simp only [Option.some_bind]
        cases A.leer i n <;> rfl

theorem bucle_j_comprobado_ok (A B R : Bloque) (ops : Int) (cA i : Nat)
    (hiA : i < A.filas) (hiR : i < R.filas) (hcA : cA ≤ A.columnas) (hcB : cA ≤ B.filas)
    (n : Nat) (hnB : n ≤ B.columnas) (hnR : n ≤ R.columnas) :
    bucle_j_comprobado A B cA i n (some (R, ops))
      = some ({ R with datos := (bucle_j A.datos B.datos cA i n (R.datos, ops)).1 },
          (bucle_j A.datos B.datos cA i n (R.datos, ops)).2) := by
  induction n with
  | zero => rfl
  | succ n ih =>
    have h1 : n < R.columnas := by omega
    rw [bucle_j_comprobado, ih (by omega) (by omega)]
    simp only [Option.some_bind, Bloque.guardar, hiR, h1, and_self, if_true]
    exact bucle_k_comprobado_ok A B
      ⟨R.filas, R.columnas, poner (bucle_j A.datos B.datos cA i n (R.datos, ops)).1 i n 0⟩
      (bucle_j A.datos B.datos cA i n (R.datos, ops)).2 i n hiA hiR (by omega) h1 cA hcA hcB

theorem bucle_j_comprobado_falla (A B : Bloque) (cA i : Nat) (st : Option (Bloque × Int))
    (hcA : B.filas < cA) (n : Nat) (hn : 1 ≤ n) : bucle_j_comprobado A B cA i n st = none := by
  cases n with
  | zero => omega
  | succ n => exact bucle_k_comprobado_falla A B i n _ cA hcA

theorem bucle_i_comprobado_ok (A B R : Bloque) (ops : Int) (cA cB : Nat)
    (hcA : cA ≤ A.columnas) (hcAB : cA ≤ B.filas) (hcB : cB ≤ B.columnas)
    (hcR : cB ≤ R.columnas) (n : Nat) (hnA : n ≤ A.filas) (hnR : n ≤ R.filas) :
    bucle_i_comprobado A B cA cB n (some (R, ops))
      = some ({ R with datos := (bucle_i A.datos B.datos cA cB n (R.datos, ops)).1 },
          (bucle_i A.datos B.datos cA cB n (R.datos, ops)).2) := by
  induction n with
  | zero => rfl
  | succ n ih =>
    rw [bucle_i_comprobado, ih (by omega) (by omega)]
    have h1 : n < A.filas := by omega
    have h2 : n < R.filas := by omega
    exact bucle_j_comprobado_ok A B
      ⟨R.filas, R.columnas, (bucle_i A.datos B.datos cA cB n (R.datos, ops)).1⟩
      (bucle_i A.datos B.datos cA cB n (R.datos, ops)).2 cA n h1 h2 hcA hcAB cB hcB hcR

theorem bucle_i_comprobado_falla (A B : Bloque) (cA cB : Nat) (st : Option (Bloque × Int))
    (hcA : B.filas < cA) (hcB : 1 ≤ cB) (n : Nat) (hn : 1 ≤ n) :
    bucle_i_comprobado A B cA cB n st = none := by
  cases n with
  | zero => omega
  | succ n => exact bucle_j_comprobado_falla A B cA n _ hcA cB hcB

/-- C27. Correctness of the matrix product, over exact integers: for all dimensions and all
integer matrices, `matrizB` having at least `columnas_A` rows, after `multiplicar_matrices`
every entry satisfies `matrizResultado[i][j] = sum over k < columnas_A of
matrizA[i][k] * matrizB[k][j]`, for all `i < filas_A` and `j < columnas_B`, whatever the
previous contents of `matrizResultado`. -/
theorem producto_correcto (filas_A columnas_A filas_B columnas_B : Nat)
    (matrizA matrizB matrizResultado : Nat → Nat → Int) (operaciones : Int)
    (_hB : columnas_A ≤ filas_B) (i j : Nat) (hi : i < filas_A) (hj : j < columnas_B) :
    (multiplicar_matrices filas_A columnas_A matrizA filas_B columnas_B matrizB
        matrizResultado operaciones).1 i j
      = Finset.sum (Finset.range columnas_A) (fun k => matrizA i k * matrizB k j) :=
  (bucle_i_efecto matrizA matrizB columnas_A columnas_B filas_A
    (matrizResultado, operaciones)).1 i j hi hj

/-- Instance of C27: a product of two 2 x 2 matrices over a result matrix that held 77
everywhere; the entry in row 1 and column 0 is `2 * 0 + 4 * 3 = 12`. -/
theorem producto_correcto_witness :
    (multiplicar_matrices 2 2 (fun i k => (i : Int) + 2 * k + 1) 2 2
        (fun k j => 3 * (k : Int) + j) (fun _ _ => 77) 0).1 1 0 = 12 :=
  (producto_correcto 2 2 2 2 (fun i k => (i : Int) + 2 * k + 1) (fun k j => 3 * (k : Int) + j)
    (fun _ _ => 77) 0 (by decide) 1 0 (by decide) (by decide)).trans (by decide)

/-- C28. Index safety of the matrix product.  `multiplicar_matrices` never uses `filas_B`:
neither its result nor its run on allocated matrices depends on it.  With `matrizA` allocated
as `filas_A x columnas_A`, `matrizB` as `filas_B x columnas_B` and the result as
`filas_A x columnas_B`, as `main` does, and `filas_A ≥ 1`, `columnas_B ≥ 1`, every array access
of the call is inside the allocations if and only if `columnas_A ≤ filas_B`: in that case the
checked run ends with exactly the result and the counter of `multiplicar_matrices`, otherwise
it makes an access outside an allocation.  `main` calls it with the four dimensions as given,
without comparing `columnas_A` with `filas_B`. -/
theorem indices_en_limites (filas_A columnas_A filas_B columnas_B : Nat)
    (hfA : 1 ≤ filas_A) (hcB : 1 ≤ columnas_B)
    (entradasA entradasB basura : Nat → Nat → Int) (operaciones : Int) :
    (∀ fB2 : Nat,
        multiplicar_matrices filas_A columnas_A entradasA filas_B columnas_B entradasB basura
            operaciones
          = multiplicar_matrices filas_A columnas_A entradasA fB2 columnas_B entradasB basura
            operaciones) ∧
      (∀ (fB2 : Nat) (A B R : Bloque),
        multiplicar_matrices_comprobado filas_A columnas_A A filas_B columnas_B B R operaciones
          = multiplicar_matrices_comprobado filas_A columnas_A A fB2 columnas_B B R
            operaciones) ∧
      (multiplicar_matrices_comprobado filas_A columnas_A
            { filas := filas_A, columnas := columnas_A, datos := entradasA } filas_B columnas_B
            { filas := filas_B, columnas := columnas_B, datos := entradasB }
            { filas := filas_A, columnas := columnas_B, datos := basura } operaciones ≠ none ↔
          columnas_A ≤ filas_B) ∧
      (columnas_A ≤ filas_B →
        multiplicar_matrices_comprobado filas_A columnas_A
            { filas := filas_A, columnas := columnas_A, datos := entradasA } filas_B columnas_B
            { filas := filas_B, columnas := columnas_B, datos := entradasB }
            { filas := filas_A, columnas := columnas_B, datos := basura } operaciones
          = some
              ({ filas := filas_A, columnas := columnas_B,
                 datos := (multiplicar_matrices filas_A columnas_A entradasA filas_B columnas_B
                   entradasB basura operaciones).1 },
                (multiplicar_matrices filas_A columnas_A entradasA filas_B columnas_B
                  entradasB basura operaciones).2)) ∧
      (¬ columnas_A ≤ filas_B →
        multiplicar_matrices_comprobado filas_A columnas_A
            { filas := filas_A, columnas := columnas_A, datos := entradasA } filas_B columnas_B
            { filas := filas_B, columnas := columnas_B, datos := entradasB }
            { filas := filas_A, columnas := columnas_B, datos := basura } operaciones
          = none) ∧
      (main_comprobado filas_A columnas_A filas_B columnas_B entradasA entradasB basura ≠ none ↔
          columnas_A ≤ filas_B) ∧
      (columnas_A ≤ filas_B →
        main_comprobado filas_A columnas_A filas_B columnas_B entradasA entradasB basura
          = some
              ({ filas := filas_A, columnas := columnas_B,
                 datos := (main filas_A columnas_A filas_B columnas_B entradasA entradasB
                   basura).1 },
                (main filas_A columnas_A filas_B columnas_B entradasA entradasB basura).2)) := by
  have hsi : ∀ ops : Int, columnas_A ≤ filas_B →
      multiplicar_matrices_comprobado filas_A columnas_A
          { filas := filas_A, columnas := columnas_A, datos := entradasA } filas_B columnas_B
          { filas := filas_B, columnas := columnas_B, datos := entradasB }
          { filas := filas_A, columnas := columnas_B, datos := basura } ops
        = some
            ({ filas := filas_A, columnas := columnas_B,
               datos := (multiplicar_matrices filas_A columnas_A entradasA filas_B columnas_B
                 entradasB basura ops).1 },
              (multiplicar_matrices filas_A columnas_A entradasA filas_B columnas_B
                entradasB basura ops).2) := by
    intro ops hle
    exact bucle_i_comprobado_ok
      { filas := filas_A, columnas := columnas_A, datos := entradasA }
      { filas := filas_B, columnas := columnas_B, datos := entradasB }
      { filas := filas_A, columnas := columnas_B, datos := basura } ops columnas_A columnas_B
      (le_refl _) hle (le_refl _) (le_refl _) filas_A (le_refl _) (le_refl _)
  have hno : ∀ ops : Int, ¬ columnas_A ≤ filas_B →
      multiplicar_matrices_comprobado filas_A columnas_A
          { filas := filas_A, columnas := columnas_A, datos := entradasA } filas_B columnas_B
          { filas := filas_B, columnas := columnas_B, datos := entradasB }
          { filas := filas_A, columnas := columnas_B, datos := basura } ops
        = none := by
    intro ops hgt
    exact bucle_i_comprobado_falla
      { filas := filas_A, columnas := columnas_A, datos := entradasA }
      { filas := filas_B, columnas := columnas_B, datos := entradasB } columnas_A columnas_B _
      (by show filas_B < columnas_A; omega) hcB filas_A hfA
  have hiff : ∀ ops : Int,
      (multiplicar_matrices_comprobado filas_A columnas_A
          { filas := filas_A, columnas := columnas_A, datos := entradasA } filas_B columnas_B
          { filas := filas_B, columnas := columnas_B, datos := entradasB }
          { filas := filas_A, columnas := columnas_B, datos := basura } ops ≠ none ↔
        columnas_A ≤ filas_B) := by
    intro ops
    constructor
    · intro h
      by_contra hgt
      exact h (hno ops hgt)
    · intro hle
      rw [hsi ops hle]
      exact Option.some_ne_none _
  exact ⟨fun _ => rfl, fun _ _ _ _ => rfl, hiff operaciones, hsi operaciones, hno operaciones,
    hiff 0, hsi 0⟩

/-- Instance of C28: a `1 x 2` matrix times a `1 x 1` matrix, the command line `1 2 1 1`;
the call reads `matrizB[1][0]`, outside the single row of `matrizB`. -/
theorem indices_en_limites_witness :
    main_comprobado 1 2 1 1 (fun _ _ => 3) (fun _ _ => 4) (fun _ _ => 0) = none :=
  (indices_en_limites 1 2 1 1 (by decide) (by decide) (fun _ _ => 3) (fun _ _ => 4)
    (fun _ _ => 0) 0).2.2.2.2.1 (by decide)

/-- C29. Operation count of the matrix product: for all dimensions `multiplicar_matrices`
increases `*operaciones` by exactly `2 * filas_A * columnas_B * columnas_A`; starting from 0
the total is `2 * filas_A * columnas_A * columnas_B`. -/
theorem operaciones_contadas (filas_A columnas_A filas_B columnas_B : Nat)
    (matrizA matrizB matrizResultado : Nat → Nat → Int) (operaciones : Int) :
    (multiplicar_matrices filas_A columnas_A matrizA filas_B columnas_B matrizB
        matrizResultado operaciones).2
        = operaciones + 2 * (filas_A : Int) * (columnas_B : Int) * (columnas_A : Int) ∧
      (multiplicar_matrices filas_A columnas_A matrizA filas_B columnas_B matrizB
        matrizResultado 0).2
        = 2 * (filas_A : Int) * (columnas_A : Int) * (columnas_B : Int) := by
  constructor
  · exact (bucle_i_efecto matrizA matrizB columnas_A columnas_B filas_A
      (matrizResultado, operaciones)).2.2
  · rw [multiplicar_matrices, (bucle_i_efecto matrizA matrizB columnas_A columnas_B filas_A
      (matrizResultado, 0)).2.2]
    ring

end Matrices
